import Mathlib

/-!
# ChessBoard (task6/1.cpp): movement rules, the `move_piece` transition and rendering

A shallow embedding of `class ChessBoard`:

* An `int` value is an `Int`; the `int` computations of `valid_move` (`from - to`, `abs`) are
  32-bit and wrap around (`int32`).  Inside `move_piece` the coordinates come from one character
  and one decimal digit, so there no subtraction leaves the range of `int`.
* `vector<vector<unique_ptr<Piece>>>` is a list of columns, each a list of optional pieces; a
  null `unique_ptr` is `none`.  `operator[]` makes no bounds check, so an access outside the
  vector is reported as `Failure.out_of_bounds`.
* `std::string` is `String`, read character by character (exact for ASCII text).
* Each `std::function` hook is either empty or installed (`Hooks`); the calls made to the
  installed hooks during one `move_piece` are collected, in order, in `Outcome.events`.
* Text sent to `cout` is the returned `String`; an `at` that throws `std::out_of_range` makes
  the result `none`.
-/

namespace ChessBoard

/-- The enum class Color. -/
inductive Color
  | WHITE
  | BLACK
  deriving DecidableEq, Repr

/-- The dynamic type of a piece: the two classes deriving from `Piece`. -/
inductive Kind
  | King
  | Knight
  deriving DecidableEq, Repr

/-- An object of class `Piece`: its dynamic type and its `color` member. -/
structure Piece where
  kind : Kind
  color : Color
  deriving DecidableEq, Repr

/-- The member `squares`: `squares[x][y]` is column (file) `x`, row (rank) `y`. -/
abbrev Squares := List (List (Option Piece))

/-- The ways a call can fail to return: `stoi` throws `std::invalid_argument`, or an
`operator[]` access lies outside its container (undefined behaviour in C++). -/
inductive Failure
  | invalid_argument
  | out_of_bounds
  deriving DecidableEq, Repr

/-- One call of an installed hook, with the arguments it received. -/
inductive Event
  | on_piece_move (piece : Piece) (from_ to_ : String)
  | on_piece_removed (piece : Piece) (square : String)
  | on_invalid_move (piece : Piece) (from_ to_ : String)
  | on_lost_game (color : Color)
  | on_missing_piece (square : String)
  | update_board (squares : Squares)
  deriving DecidableEq, Repr

/-- Which of the six `std::function` members hold a callable (`if (hook)` is true). -/
structure Hooks where
  on_piece_move : Bool
  on_piece_removed : Bool
  on_invalid_move : Bool
  on_lost_game : Bool
  on_missing_piece : Bool
  update_board : Bool
  deriving DecidableEq, Repr

/-- The result of a call of `move_piece` that returns: the returned boolean, the grid after
the call, and the hook calls made, oldest first. -/
structure Outcome where
  ret : Bool
  squares : Squares
  events : List Event
  deriving DecidableEq, Repr

deriving instance DecidableEq for Except

/-- `Piece::color_string`. -/
def Piece.color_string (p : Piece) : String :=
  if p.color = Color.WHITE then "white" else "black"

/-- The value a 32-bit `int` computation yields: the exact result when it is representable,
and its two's-complement wrap-around otherwise. -/
def int32 (z : Int) : Int :=
  (z + 2147483648) % 4294967296 - 2147483648

/-- The `int` subtraction `a - b`. -/
def int_sub (a b : Int) : Int :=
  int32 (a - b)

/-- `abs` on `int`: the negation is an `int` computation too, so `abs(INT_MIN)` is `INT_MIN`. -/
def int_abs (a : Int) : Int :=
  if a < 0 then int32 (-a) else a

/-- `King::valid_move` (lines 44-50); a non-zero `int` used as a condition is true. -/
def King.valid_move (from_x from_y to_x to_y : Int) : Bool :=
  if int_abs (int_sub from_x to_x) = 1 || int_abs (int_sub from_y to_y) = 1
      || (int_abs (int_sub from_x to_x) = 1 && int_abs (int_sub from_y to_y) ≠ 0) then
    true
  else
    false

/-- `Knight::valid_move` (lines 66-75). -/
def Knight.valid_move (from_x from_y to_x to_y : Int) : Bool :=
  if (int_sub from_x to_x = 2 || int_sub from_x to_x = -2)
      && (int_sub from_y to_y = 1 || int_sub from_y to_y = -1) then
    true
  else if (int_sub from_x to_x = 1 || int_sub from_x to_x = -1)
      && (int_sub from_y to_y = 2 || int_sub from_y to_y = -2) then
    true
  else
    false

/-- The virtual call `piece->valid_move(...)`, dispatched on the dynamic type. -/
def Piece.valid_move (p : Piece) (from_x from_y to_x to_y : Int) : Bool :=
  match p.kind with
  | Kind.King => King.valid_move from_x from_y to_x to_y
  | Kind.Knight => Knight.valid_move from_x from_y to_x to_y

/-- The constructor `ChessBoard()`: 8 columns resized to 8 null pointers each. -/
def empty : Squares := List.replicate 8 (List.replicate 8 none)

/-- Reading `squares[x][y]` with `int` indices: a negative index converts to a huge `size_t`,
so it is out of bounds like any index beyond the size. -/
def index (squares : Squares) (x y : Int) : Except Failure (Option Piece) :=
  if 0 ≤ x ∧ 0 ≤ y then
    match squares[x.toNat]? with
    | some column =>
      match column[y.toNat]? with
      | some cell => Except.ok cell
      | none => Except.error Failure.out_of_bounds
    | none => Except.error Failure.out_of_bounds
  else
    Except.error Failure.out_of_bounds

/-- Writing `squares[x][y] = cell` at a position that `index` has found in bounds. -/
def assign (squares : Squares) (x y : Int) (cell : Option Piece) : Squares :=
  if 0 ≤ x ∧ 0 ≤ y then
    match squares[x.toNat]? with
    | some column => squares.set x.toNat (column.set y.toNat cell)
    | none => squares
  else
    squares

/-- `s[i]` on a `std::string`: the character at `i`, the terminating null character at
`i = size()`, and undefined beyond that. -/
def char_at (s : String) (i : Nat) : Except Failure Char :=
  match s.data[i]? with
  | some c => Except.ok c
  | none => if i = s.data.length then Except.ok (Char.ofNat 0) else Except.error Failure.out_of_bounds

/-- `stoi(string() + c)`: the value of a decimal digit; any other single character converts
nothing and `stoi` throws `std::invalid_argument`. -/
def stoi (c : Char) : Except Failure Int :=
  if c.isDigit then Except.ok ((c.toNat : Int) - ('0'.toNat : Int))
  else Except.error Failure.invalid_argument

/-- Lines 120-123 for one of the two strings: `x = s[0] - 'a'`, `y = stoi(string() + s[1]) - 1`. -/
def coords (s : String) : Except Failure (Int × Int) := do
  let c0 ← char_at s 0
  let c1 ← char_at s 1
  let n ← stoi c1
  pure ((c0.toNat : Int) - ('a'.toNat : Int), n - 1)

/-- The guarded call `if (hook) hook(args)`: one call when the hook is installed, none otherwise. -/
def fire (installed : Bool) (e : Event) : List Event :=
  if installed then [e] else []

/-- Line 149, `piece_to = move(piece_from)`: the source pointer is released (set to null)
first, then the destination is reset to the released piece, destroying its old occupant. -/
def move_assign (squares : Squares) (from_x from_y to_x to_y : Int) (p : Piece) : Squares :=
  assign (assign squares from_x from_y none) to_x to_y (some p)

/-- `ChessBoard::move_piece` (lines 119-166). -/
def move_piece (hk : Hooks) (squares : Squares) (from_ to_ : String) : Except Failure Outcome := do
  let (from_x, from_y) ← coords from_
  let (to_x, to_y) ← coords to_
  let piece_from ← index squares from_x from_y
  match piece_from with
  | some p =>
    if p.valid_move from_x from_y to_x to_y then
      let moved := fire hk.on_piece_move (Event.on_piece_move p from_ to_)
      let piece_to ← index squares to_x to_y
      match piece_to with
      | some q =>
        if p.color ≠ q.color then
          let removed := fire hk.on_piece_removed (Event.on_piece_removed q to_)
          let lost := if q.kind = Kind.King then fire hk.on_lost_game (Event.on_lost_game q.color) else []
          let squares' := move_assign squares from_x from_y to_x to_y p
          pure ⟨true, squares', moved ++ removed ++ lost ++ fire hk.update_board (Event.update_board squares')⟩
        else
          pure ⟨false, squares, moved ++ fire hk.on_invalid_move (Event.on_invalid_move p from_ to_)⟩
      | none =>
        let squares' := move_assign squares from_x from_y to_x to_y p
        pure ⟨true, squares', moved ++ fire hk.update_board (Event.update_board squares')⟩
    else
      pure ⟨false, squares, fire hk.on_invalid_move (Event.on_invalid_move p from_ to_)⟩
  | none =>
    pure ⟨false, squares, fire hk.on_missing_piece (Event.on_missing_piece from_)⟩

/-- The wiring done by `ChessboardPrint`: all six hooks installed. -/
def ChessboardPrint : Hooks := ⟨true, true, true, true, true, true⟩

/-- The position set up in `main` (lines 220-226). -/
def start : Squares :=
  let s0 := empty
  let s1 := assign s0 4 0 (some ⟨Kind.King, Color.WHITE⟩)
  let s2 := assign s1 1 0 (some ⟨Kind.Knight, Color.WHITE⟩)
  let s3 := assign s2 6 0 (some ⟨Kind.Knight, Color.WHITE⟩)
  let s4 := assign s3 4 7 (some ⟨Kind.King, Color.BLACK⟩)
  let s5 := assign s4 1 7 (some ⟨Kind.Knight, Color.BLACK⟩)
  assign s5 6 7 (some ⟨Kind.Knight, Color.BLACK⟩)

/-- A board as the constructor leaves its shape: 8 columns of 8 squares. -/
def wf (squares : Squares) : Prop :=
  squares.length = 8 ∧ ∀ column ∈ squares, column.length = 8

instance (squares : Squares) : Decidable (wf squares) := by
  unfold wf; exact inferInstance

/-- Well-formed square notation: a letter a-h followed by a digit 1-8, nothing else. -/
def well_formed (s : String) : Prop :=
  ∃ c ∈ ['a', 'b', 'c', 'd', 'e', 'f', 'g', 'h'],
    ∃ d ∈ ['1', '2', '3', '4', '5', '6', '7', '8'], s = String.mk [c, d]

instance (s : String) : Decidable (well_formed s) := by
  unfold well_formed; exact inferInstance

/-- The starting position with a black Knight added on f3, where the white Knight on g1
attacks it. -/
def knight_takes_knight : Squares := assign start 5 2 (some ⟨Kind.Knight, Color.BLACK⟩)

/-- The starting position with a white Knight added on f6, where it attacks the black King
on e8 (the position before the last move of the demo, up to the other pieces). -/
def knight_takes_king : Squares := assign start 5 5 (some ⟨Kind.Knight, Color.WHITE⟩)

/-- The starting position with a white Knight added on e2, next to the white King on e1. -/
def king_blocked : Squares := assign start 4 1 (some ⟨Kind.Knight, Color.WHITE⟩)

/-- `King::type` (lines 40-42). -/
def King.type (p : Piece) : String :=
  p.color_string ++ " King"

/-- `King::print_piece` (lines 52-55): `std::string color(1, color_string()[0])` is the first
character of the colour name. -/
def King.print_piece (p : Piece) : String :=
  let color := String.singleton (p.color_string.get 0)
  color ++ "k"

/-- `Knight::type` (lines 62-64). -/
def Knight.type (p : Piece) : String :=
  p.color_string ++ " Knight"

/-- `Knight::print_piece` (lines 77-80). -/
def Knight.print_piece (p : Piece) : String :=
  let color := String.singleton (p.color_string.get 0)
  color ++ "kn"

/-- The virtual call `piece->type()`. -/
def Piece.type (p : Piece) : String :=
  match p.kind with
  | Kind.King => King.type p
  | Kind.Knight => Knight.type p

/-- The virtual call `piece->print_piece()`. -/
def Piece.print_piece (p : Piece) : String :=
  match p.kind with
  | Kind.King => King.print_piece p
  | Kind.Knight => Knight.print_piece p

/-- A `for` loop that writes to `cout`: the text written by the iterations, in order; the
loop stops with the first iteration that throws. -/
def run_loop (body : Nat → Option String) : List Nat → Option String
  | [] => some ""
  | k :: ks =>
    match body k with
    | none => none
    | some text =>
      match run_loop body ks with
      | none => none
      | some more => some (text ++ more)

/-- Lines 105-110, the body of the inner loop: `squares.at(j).at(i)` throws
`std::out_of_range` (here `none`) outside the vectors. -/
def print_cell (squares : Squares) (i j : Nat) : Option String :=
  match squares[j]? with
  | none => none
  | some column =>
    match column[i]? with
    | none => none
    | some none => some "  - "
    | some (some piece) => some (" " ++ piece.print_piece ++ " ")

/-- Lines 103-112, the body of the outer loop: the row number `i + 1`, then one cell for each
`j` below `squares.at(i).size()`, then `endl`. -/
def print_row (squares : Squares) (i : Nat) : Option String :=
  match squares[i]? with
  | none => none
  | some column_i =>
    match run_loop (print_cell squares i) (List.range column_i.length) with
    | none => none
    | some cells => some ("  " ++ toString (i + 1) ++ "  " ++ cells ++ "\n")

/-- `ChessBoard::print_piece()` (lines 101-115): `i` runs from `squares.size() - 1` down to 0,
then the legend and two line ends are written.  The result is the text sent to `cout`, or
`none` when an `at` throws. -/
def print_piece (squares : Squares) : Option String :=
  match run_loop (print_row squares) (List.range squares.length).reverse with
  | none => none
  | some rows => some (rows ++ "       A   B   C   D   E    F   G   H \n" ++ "\n")

/-- The `update_board` subscriber installed by `ChessboardPrint` (lines 198-212), which
repeats the loops of `print_piece` on the grid it is handed. -/
def update_board_subscriber (squares : Squares) : Option String :=
  match run_loop (fun i =>
      match squares[i]? with
      | none => none
      | some column_i =>
        match run_loop (fun j =>
            match squares[j]? with
            | none => none
            | some column =>
              match column[i]? with
              | none => none
              | some none => some "  - "
              | some (some piece) => some (" " ++ piece.print_piece ++ " "))
          (List.range column_i.length) with
        | none => none
        | some cells => some ("  " ++ toString (i + 1) ++ "  " ++ cells ++ "\n"))
      (List.range squares.length).reverse with
  | none => none
  | some rows => some (rows ++ "       A   B   C   D   E    F   G   H \n" ++ "\n")

/-- The cell the specification describes for file `f` on the line of rank index `r`: the short
code of the piece on `squares[f][r]`, or the placeholder `-`, padded as the source pads it. -/
def spec_cell (squares : Squares) (f r : Nat) : String :=
  match index squares f r with
  | Except.ok (some piece) => " " ++ piece.print_piece ++ " "
  | _ => "  - "

/-- The line the specification describes for rank index `r` (rank number `r + 1`): the rank
number, then the cells of files a to h from left to right. -/
def spec_rank_line (squares : Squares) (r : Nat) : String :=
  "  " ++ toString (r + 1) ++ "  "
    ++ spec_cell squares 0 r ++ spec_cell squares 1 r ++ spec_cell squares 2 r
    ++ spec_cell squares 3 r ++ spec_cell squares 4 r ++ spec_cell squares 5 r
    ++ spec_cell squares 6 r ++ spec_cell squares 7 r ++ "\n"

/-- The text the specification describes: the rank lines 8, 7, ..., 1 from top to bottom,
then the legend naming the files A to H. -/
def spec_render (squares : Squares) : String :=
  spec_rank_line squares 7 ++ spec_rank_line squares 6 ++ spec_rank_line squares 5
    ++ spec_rank_line squares 4 ++ spec_rank_line squares 3 ++ spec_rank_line squares 2
    ++ spec_rank_line squares 1 ++ spec_rank_line squares 0
    ++ "       A   B   C   D   E    F   G   H \n" ++ "\n"

/-- Whether a square holds a piece with property `P`. -/
def holds (P : Piece → Bool) (cell : Option Piece) : Bool :=
  match cell with
  | some p => P p
  | none => false

/-- The number of pieces on the grid with property `P`, counted square by square. -/
def count_pieces (P : Piece → Bool) (squares : Squares) : Nat :=
  (squares.map (fun column => column.countP (holds P))).sum

/-- The position the four opening moves of the demo lead to: white King e2, white Knights c3
and g1, black King e8, black Knights b8 and g8, nothing else. -/
def after_four_moves : Squares :=
  let s0 := empty
  let s1 := assign s0 4 1 (some ⟨Kind.King, Color.WHITE⟩)
  let s2 := assign s1 2 2 (some ⟨Kind.Knight, Color.WHITE⟩)
  let s3 := assign s2 6 0 (some ⟨Kind.Knight, Color.WHITE⟩)
  let s4 := assign s3 4 7 (some ⟨Kind.King, Color.BLACK⟩)
  let s5 := assign s4 1 7 (some ⟨Kind.Knight, Color.BLACK⟩)
  assign s5 6 7 (some ⟨Kind.Knight, Color.BLACK⟩)

/-! ## Auxiliary facts about parsing, the grid and the five paths of `move_piece` -/

/-- Parsing a letter a-h followed by a digit 1-8 yields file `letter - 97` and rank `digit - 49`, both below 8. -/
theorem coords_mk {c d : Char} (hc : c ∈ ['a', 'b', 'c', 'd', 'e', 'f', 'g', 'h'])
    (hd : d ∈ ['1', '2', '3', '4', '5', '6', '7', '8']) :
    coords (String.mk [c, d]) = Except.ok (((c.toNat - 97 : Nat) : Int), ((d.toNat - 49 : Nat) : Int))
      ∧ c.toNat - 97 < 8 ∧ d.toNat - 49 < 8 := by
  simp only [List.mem_cons, List.mem_singleton, List.not_mem_nil, or_false] at hc hd
  rcases hc with rfl | rfl | rfl | rfl | rfl | rfl | rfl | rfl <;>
    rcases hd with rfl | rfl | rfl | rfl | rfl | rfl | rfl | rfl <;> decide

/-- Well-formed notation parses to coordinates within 0..7. -/
theorem coords_of_well_formed {s : String} (h : well_formed s) :
    ∃ x y : Nat, x < 8 ∧ y < 8 ∧ coords s = Except.ok ((x : Int), (y : Int)) := by
  obtain ⟨c, hc, d, hd, rfl⟩ := h
  obtain ⟨h1, h2, h3⟩ := coords_mk hc hd
  exact ⟨_, _, h2, h3, h1⟩

/-- On an 8x8 grid every access with both indices below 8 is in bounds. -/
theorem index_of_wf {squares : Squares} (h : wf squares) {x y : Nat} (hx : x < 8) (hy : y < 8) :
    ∃ cell, index squares x y = Except.ok cell := by
  obtain ⟨hl, hc⟩ := h
  have hx' : x < squares.length := by omega
  have hy' : y < (squares[x]).length := by rw [hc _ (List.getElem_mem _)]; exact hy
  refine ⟨(squares[x])[y], ?_⟩
  simp [index, List.getElem?_eq_getElem hx', List.getElem?_eq_getElem hy']

/-- Writing one square leaves the reading of every other position as it was. -/
theorem index_assign_ne (squares : Squares) (x y x' y' : Int) (cell : Option Piece)
    (h : ¬ (x' = x ∧ y' = y)) :
    index (assign squares x y cell) x' y' = index squares x' y' := by
  unfold index assign
  by_cases h1 : 0 ≤ x ∧ 0 ≤ y
  · by_cases h2 : 0 ≤ x' ∧ 0 ≤ y'
    · simp only [h1, h2, and_self, if_true]
      cases hcol : squares[x.toNat]? with
      | none => simp
      | some column =>
        simp only [List.getElem?_set]
        by_cases hxx : x.toNat = x'.toNat
        · have hyy : y.toNat ≠ y'.toNat := by omega
          simp only [hxx, if_true]
          rw [hxx] at hcol
          have hlt : x'.toNat < squares.length := by
            rcases Nat.lt_or_ge x'.toNat squares.length with h | h
            · exact h
            · rw [List.getElem?_eq_none h] at hcol; cases hcol
          simp [hlt, hcol, List.getElem?_set, hyy]
        · simp [hxx]
    · simp [h2]
  · simp [h1]

/-- Reading back a square that was in bounds and has just been written gives the written cell. -/
theorem index_assign_eq {squares : Squares} {x y : Int} {old : Option Piece}
    (h : index squares x y = Except.ok old) (cell : Option Piece) :
    index (assign squares x y cell) x y = Except.ok cell := by
  unfold index at h
  unfold index assign
  by_cases h1 : 0 ≤ x ∧ 0 ≤ y
  · simp only [h1, and_self, if_true] at h ⊢
    cases hcol : squares[x.toNat]? with
    | none => simp [hcol] at h
    | some column =>
      simp only [hcol] at h
      have hlt : x.toNat < squares.length := by
        rcases Nat.lt_or_ge x.toNat squares.length with h | h
        · exact h
        · rw [List.getElem?_eq_none h] at hcol; cases hcol
      cases hc : column[y.toNat]? with
      | none => simp [hc] at h
      | some c =>
        have hlt2 : y.toNat < column.length := by
          rcases Nat.lt_or_ge y.toNat column.length with h | h
          · exact h
          · rw [List.getElem?_eq_none h] at hc; cases hc
        simp [List.getElem?_set, hlt, hlt2]
  · simp [h1] at h

/-- Writing a square keeps the 8x8 shape. -/
theorem wf_assign {squares : Squares} (h : wf squares) (x y : Int) (cell : Option Piece) :
    wf (assign squares x y cell) := by
  obtain ⟨hl, hc⟩ := h
  unfold assign
  split
  · split
    · rename_i column hcol
      refine ⟨by simpa using hl, ?_⟩
      intro col hmem
      rcases List.mem_or_eq_of_mem_set hmem with h | h
      · exact hc _ h
      · rw [h, List.length_set]
        exact hc _ (List.getElem?_mem hcol)
    · exact ⟨hl, hc⟩
  · exact ⟨hl, hc⟩

/-- A value within the range of `int` is not changed by the wrap-around. -/
theorem int32_of_range {z : Int} (h1 : -2147483648 ≤ z) (h2 : z ≤ 2147483647) : int32 z = z := by
  unfold int32
  omega

/-- An `int` minus itself is 0. -/
theorem int_sub_self (a : Int) : int_sub a a = 0 := by
  unfold int_sub int32
  omega

/-- A difference that does not overflow is the exact difference. -/
theorem int_sub_of_range {a b : Int} (h1 : -2147483648 ≤ a - b) (h2 : a - b ≤ 2147483647) :
    int_sub a b = a - b :=
  int32_of_range h1 h2

/-- `abs(0)` is 0. -/
theorem int_abs_zero : int_abs 0 = 0 := by
  decide

/-- On a value within the range of `int`, `abs` yields 1 exactly for 1 and -1. -/
theorem int_abs_eq_one_iff {z : Int} (h1 : -2147483648 ≤ z) (h2 : z ≤ 2147483647) :
    int_abs z = 1 ↔ (z = 1 ∨ z = -1) := by
  unfold int_abs int32
  split_ifs <;> omega

/-- Swapping the operands of an `int` subtraction does not change its `abs`. -/
theorem int_abs_int_sub_comm (a b : Int) : int_abs (int_sub a b) = int_abs (int_sub b a) := by
  unfold int_abs int_sub int32
  split_ifs <;> omega

/-- Swapping the operands of an `int` subtraction swaps the results `n` and `-n` for a non-zero
`n` within range. -/
theorem int_sub_eq_or_neg_comm (a b n : Int) (h1 : 0 < n) (h2 : n ≤ 2147483647) :
    (int_sub a b = n ∨ int_sub a b = -n) ↔ (int_sub b a = n ∨ int_sub b a = -n) := by
  unfold int_sub int32
  omega

/-- Neither piece type accepts a move that leaves both coordinates unchanged. -/
theorem valid_move_ne {p : Piece} {fx fy tx ty : Int} (h : p.valid_move fx fy tx ty = true) :
    ¬ (fx = tx ∧ fy = ty) := by
  rintro ⟨rfl, rfl⟩
  rcases p with ⟨k, c⟩
  cases k
  · simp [Piece.valid_move, King.valid_move, int_sub_self, int_abs_zero] at h
  · simp [Piece.valid_move, Knight.valid_move, int_sub_self] at h

/-- After line 149 the destination holds the moved piece. -/
theorem index_move_assign_to {squares : Squares} {fx fy tx ty : Int} {a b : Option Piece}
    (hf : index squares fx fy = Except.ok a) (ht : index squares tx ty = Except.ok b) (p : Piece) :
    index (move_assign squares fx fy tx ty p) tx ty = Except.ok (some p) := by
  unfold move_assign
  by_cases h : tx = fx ∧ ty = fy
  · obtain ⟨rfl, rfl⟩ := h
    exact index_assign_eq (index_assign_eq hf none) (some p)
  · have h' : index (assign squares fx fy none) tx ty = Except.ok b := by
      rw [index_assign_ne _ _ _ _ _ _ h]; exact ht
    exact index_assign_eq h' (some p)

/-- After line 149 the source is empty, when source and destination differ. -/
theorem index_move_assign_from {squares : Squares} {fx fy tx ty : Int} {a : Option Piece}
    (hf : index squares fx fy = Except.ok a) (hne : ¬ (fx = tx ∧ fy = ty)) (p : Piece) :
    index (move_assign squares fx fy tx ty p) fx fy = Except.ok none := by
  unfold move_assign
  rw [index_assign_ne _ _ _ _ _ _ hne]
  exact index_assign_eq hf none

/-- Line 149 touches no square other than source and destination. -/
theorem index_move_assign_other (squares : Squares) (fx fy tx ty x y : Int) (p : Piece)
    (h1 : ¬ (x = fx ∧ y = fy)) (h2 : ¬ (x = tx ∧ y = ty)) :
    index (move_assign squares fx fy tx ty p) x y = index squares x y := by
  unfold move_assign
  rw [index_assign_ne _ _ _ _ _ _ h2, index_assign_ne _ _ _ _ _ _ h1]

/-- Moving a piece between two different squares changes the grid. -/
theorem move_assign_ne {squares : Squares} {fx fy tx ty : Int} {p q : Piece}
    (hf : index squares fx fy = Except.ok (some q)) (hne : ¬ (fx = tx ∧ fy = ty)) :
    move_assign squares fx fy tx ty p ≠ squares := by
  intro h
  have h1 := index_move_assign_from hf hne p
  rw [h, hf] at h1
  cases h1

/-- A guarded hook call makes no call other than the one it guards. -/
theorem mem_fire {b : Bool} {e e' : Event} (h : e' ∈ fire b e) : e' = e := by
  unfold fire at h
  split at h
  · simpa using h
  · simp at h

/-- The path of lines 160-165: no piece on the source square. -/
theorem move_piece_eq_missing (hk : Hooks) {squares : Squares} {from_ to_ : String}
    {fx fy tx ty : Int}
    (hcf : coords from_ = Except.ok (fx, fy)) (hct : coords to_ = Except.ok (tx, ty))
    (hp : index squares fx fy = Except.ok none) :
    move_piece hk squares from_ to_
      = Except.ok ⟨false, squares, fire hk.on_missing_piece (Event.on_missing_piece from_)⟩ := by
  simp [move_piece, hcf, hct, hp, bind, Except.bind, pure, Except.pure]

/-- The path of lines 154-159: the piece refuses the move. -/
theorem move_piece_eq_rejected (hk : Hooks) {squares : Squares} {from_ to_ : String}
    {fx fy tx ty : Int} {p : Piece}
    (hcf : coords from_ = Except.ok (fx, fy)) (hct : coords to_ = Except.ok (tx, ty))
    (hp : index squares fx fy = Except.ok (some p))
    (hv : p.valid_move fx fy tx ty = false) :
    move_piece hk squares from_ to_
      = Except.ok ⟨false, squares, fire hk.on_invalid_move (Event.on_invalid_move p from_ to_)⟩ := by
  simp [move_piece, hcf, hct, hp, hv, bind, Except.bind, pure, Except.pure]

/-- The path of lines 141-147: the destination holds a piece of the colour of the mover. -/
theorem move_piece_eq_same_color (hk : Hooks) {squares : Squares} {from_ to_ : String}
    {fx fy tx ty : Int} {p q : Piece}
    (hcf : coords from_ = Except.ok (fx, fy)) (hct : coords to_ = Except.ok (tx, ty))
    (hp : index squares fx fy = Except.ok (some p))
    (hv : p.valid_move fx fy tx ty = true)
    (hq : index squares tx ty = Except.ok (some q))
    (hcol : q.color = p.color) :
    move_piece hk squares from_ to_
      = Except.ok ⟨false, squares, fire hk.on_piece_move (Event.on_piece_move p from_ to_)
          ++ fire hk.on_invalid_move (Event.on_invalid_move p from_ to_)⟩ := by
  simp [move_piece, hcf, hct, hp, hv, hq, hcol, bind, Except.bind, pure, Except.pure]

/-- The path of lines 133-140 and 149-153: the destination holds an enemy piece. -/
theorem move_piece_eq_capture (hk : Hooks) {squares : Squares} {from_ to_ : String}
    {fx fy tx ty : Int} {p q : Piece}
    (hcf : coords from_ = Except.ok (fx, fy)) (hct : coords to_ = Except.ok (tx, ty))
    (hp : index squares fx fy = Except.ok (some p))
    (hv : p.valid_move fx fy tx ty = true)
    (hq : index squares tx ty = Except.ok (some q))
    (hcol : q.color ≠ p.color) :
    move_piece hk squares from_ to_
      = Except.ok ⟨true, move_assign squares fx fy tx ty p,
          fire hk.on_piece_move (Event.on_piece_move p from_ to_)
          ++ fire hk.on_piece_removed (Event.on_piece_removed q to_)
          ++ (if q.kind = Kind.King then fire hk.on_lost_game (Event.on_lost_game q.color) else [])
          ++ fire hk.update_board (Event.update_board (move_assign squares fx fy tx ty p))⟩ := by
  simp [move_piece, hcf, hct, hp, hv, hq, Ne.symm hcol, bind, Except.bind, pure, Except.pure]

/-- The path of lines 128-131 and 149-153 with an empty destination. -/
theorem move_piece_eq_to_empty (hk : Hooks) {squares : Squares} {from_ to_ : String}
    {fx fy tx ty : Int} {p : Piece}
    (hcf : coords from_ = Except.ok (fx, fy)) (hct : coords to_ = Except.ok (tx, ty))
    (hp : index squares fx fy = Except.ok (some p))
    (hv : p.valid_move fx fy tx ty = true)
    (hq : index squares tx ty = Except.ok none) :
    move_piece hk squares from_ to_
      = Except.ok ⟨true, move_assign squares fx fy tx ty p,
          fire hk.on_piece_move (Event.on_piece_move p from_ to_)
          ++ fire hk.update_board (Event.update_board (move_assign squares fx fy tx ty p))⟩ := by
  simp [move_piece, hcf, hct, hp, hv, hq, bind, Except.bind, pure, Except.pure]

/-- Both movement rules are symmetric in source and destination. -/
theorem valid_move_symm (p : Piece) (fx fy tx ty : Int) :
    p.valid_move tx ty fx fy = p.valid_move fx fy tx ty := by
  rcases p with ⟨k, c⟩
  cases k
  · simp only [Piece.valid_move, King.valid_move, int_abs_int_sub_comm tx fx,
      int_abs_int_sub_comm ty fy]
  · have e1 := int_sub_eq_or_neg_comm tx fx 2 (by norm_num) (by norm_num)
    have e2 := int_sub_eq_or_neg_comm ty fy 1 (by norm_num) (by norm_num)
    have e3 := int_sub_eq_or_neg_comm tx fx 1 (by norm_num) (by norm_num)
    have e4 := int_sub_eq_or_neg_comm ty fy 2 (by norm_num) (by norm_num)
    simp only [Piece.valid_move, Knight.valid_move, Bool.or_eq_true, Bool.and_eq_true,
      decide_eq_true_eq, e1, e2, e3, e4]

/-- Line 149 keeps the 8x8 shape. -/
theorem wf_move_assign {squares : Squares} (h : wf squares) (fx fy tx ty : Int) (p : Piece) :
    wf (move_assign squares fx fy tx ty p) :=
  wf_assign (wf_assign h fx fy none) tx ty (some p)

/-- Two 8x8 grids that read alike on every square are the same grid. -/
theorem squares_ext {s1 s2 : Squares} (h1 : wf s1) (h2 : wf s2)
    (h : ∀ x y : Nat, x < 8 → y < 8 → index s1 x y = index s2 x y) : s1 = s2 := by
  obtain ⟨l1, c1⟩ := h1
  obtain ⟨l2, c2⟩ := h2
  apply List.ext_getElem (by omega)
  intro x hx1 hx2
  have e1 : (s1[x]).length = 8 := c1 _ (List.getElem_mem _)
  have e2 : (s2[x]).length = 8 := c2 _ (List.getElem_mem _)
  apply List.ext_getElem (by omega)
  intro y hy1 hy2
  have hxy := h x y (by omega) (by omega)
  simp only [index, Int.toNat_ofNat, Int.ofNat_nonneg, and_self, if_true,
    List.getElem?_eq_getElem hx1, List.getElem?_eq_getElem hx2,
    List.getElem?_eq_getElem hy1, List.getElem?_eq_getElem hy2] at hxy
  injection hxy

/-- Moving a piece to an empty square and straight back gives the grid one started from. -/
theorem move_assign_back {squares : Squares} (hsq : wf squares) {fx fy tx ty : Int} {p : Piece}
    (hp : index squares fx fy = Except.ok (some p))
    (hq : index squares tx ty = Except.ok none) :
    move_assign (move_assign squares fx fy tx ty p) tx ty fx fy p = squares := by
  have hne : ¬ (fx = tx ∧ fy = ty) := by
    rintro ⟨rfl, rfl⟩
    rw [hp] at hq
    cases hq
  have hne' : ¬ (tx = fx ∧ ty = fy) := fun h => hne ⟨h.1.symm, h.2.symm⟩
  have h1t := index_move_assign_to hp hq p
  have h1f := index_move_assign_from hp hne p
  apply squares_ext (wf_move_assign (wf_move_assign hsq _ _ _ _ _) _ _ _ _ _) hsq
  intro x y _ _
  by_cases hf : ((x : Int) = fx ∧ (y : Int) = fy)
  · obtain ⟨rfl, rfl⟩ := hf
    rw [index_move_assign_to h1t h1f p, hp]
  · by_cases ht : ((x : Int) = tx ∧ (y : Int) = ty)
    · obtain ⟨rfl, rfl⟩ := ht
      rw [index_move_assign_from h1t hne' p, hq]
    · rw [index_move_assign_other _ _ _ _ _ _ _ _ ht hf,
        index_move_assign_other _ _ _ _ _ _ _ _ hf ht]

/-- The coordinates of well-formed notation, written as the source computes them: the letter
minus `'a'` and the digit value minus one, both within 0..7. -/
theorem coords_mk_int {c d : Char} (hc : c ∈ ['a', 'b', 'c', 'd', 'e', 'f', 'g', 'h'])
    (hd : d ∈ ['1', '2', '3', '4', '5', '6', '7', '8']) :
    coords (String.mk [c, d])
        = Except.ok ((c.toNat : Int) - ('a'.toNat : Int), ((d.toNat : Int) - ('0'.toNat : Int)) - 1)
      ∧ (0 ≤ (c.toNat : Int) - ('a'.toNat : Int) ∧ (c.toNat : Int) - ('a'.toNat : Int) ≤ 7)
      ∧ (0 ≤ ((d.toNat : Int) - ('0'.toNat : Int)) - 1
          ∧ ((d.toNat : Int) - ('0'.toNat : Int)) - 1 ≤ 7) := by
  simp only [List.mem_cons, List.mem_singleton, List.not_mem_nil, or_false] at hc hd
  rcases hc with rfl | rfl | rfl | rfl | rfl | rfl | rfl | rfl <;>
    rcases hd with rfl | rfl | rfl | rfl | rfl | rfl | rfl | rfl <;> decide

/-- Every call whose two strings parse and whose two squares are in bounds takes one of the
five paths of `move_piece`. -/
theorem move_piece_paths (hk : Hooks) {squares : Squares} {from_ to_ : String}
    {fx fy tx ty : Int} {a b : Option Piece}
    (hcf : coords from_ = Except.ok (fx, fy)) (hct : coords to_ = Except.ok (tx, ty))
    (ha : index squares fx fy = Except.ok a) (hb : index squares tx ty = Except.ok b) :
    (a = none ∧ move_piece hk squares from_ to_
        = Except.ok ⟨false, squares, fire hk.on_missing_piece (Event.on_missing_piece from_)⟩)
    ∨ (∃ p, a = some p ∧ p.valid_move fx fy tx ty = false ∧ move_piece hk squares from_ to_
        = Except.ok ⟨false, squares, fire hk.on_invalid_move (Event.on_invalid_move p from_ to_)⟩)
    ∨ (∃ p q, a = some p ∧ p.valid_move fx fy tx ty = true ∧ b = some q ∧ q.color = p.color
        ∧ move_piece hk squares from_ to_
          = Except.ok ⟨false, squares, fire hk.on_piece_move (Event.on_piece_move p from_ to_)
              ++ fire hk.on_invalid_move (Event.on_invalid_move p from_ to_)⟩)
    ∨ (∃ p q, a = some p ∧ p.valid_move fx fy tx ty = true ∧ b = some q ∧ q.color ≠ p.color
        ∧ move_piece hk squares from_ to_
          = Except.ok ⟨true, move_assign squares fx fy tx ty p,
              fire hk.on_piece_move (Event.on_piece_move p from_ to_)
              ++ fire hk.on_piece_removed (Event.on_piece_removed q to_)
              ++ (if q.kind = Kind.King then fire hk.on_lost_game (Event.on_lost_game q.color)
                  else [])
              ++ fire hk.update_board (Event.update_board (move_assign squares fx fy tx ty p))⟩)
    ∨ (∃ p, a = some p ∧ p.valid_move fx fy tx ty = true ∧ b = none
        ∧ move_piece hk squares from_ to_
          = Except.ok ⟨true, move_assign squares fx fy tx ty p,
              fire hk.on_piece_move (Event.on_piece_move p from_ to_)
              ++ fire hk.update_board (Event.update_board (move_assign squares fx fy tx ty p))⟩) := by
  cases a with
  | none => exact Or.inl ⟨rfl, move_piece_eq_missing hk hcf hct ha⟩
  | some p =>
    cases hv : p.valid_move fx fy tx ty with
    | false => exact Or.inr (Or.inl ⟨p, rfl, hv, move_piece_eq_rejected hk hcf hct ha hv⟩)
    | true =>
      cases b with
      | none =>
        exact Or.inr (Or.inr (Or.inr (Or.inr
          ⟨p, rfl, hv, rfl, move_piece_eq_to_empty hk hcf hct ha hv hb⟩)))
      | some q =>
        by_cases hcol : q.color = p.color
        · exact Or.inr (Or.inr (Or.inl
            ⟨p, q, rfl, hv, rfl, hcol, move_piece_eq_same_color hk hcf hct ha hv hb hcol⟩))
        · exact Or.inr (Or.inr (Or.inr (Or.inl
            ⟨p, q, rfl, hv, rfl, hcol, move_piece_eq_capture hk hcf hct ha hv hb hcol⟩)))

/-- A guarded hook call that made a call was installed, and the call is the guarded one. -/
theorem fire_of_mem {b : Bool} {e e' : Event} (h : e' ∈ fire b e) : fire b e = [e'] := by
  cases b
  · simp [fire] at h
  · simp only [fire, if_true, List.mem_singleton] at h ⊢
    rw [h]

/-- A loop none of whose iterations throws writes the texts of its iterations in order. -/
theorem run_loop_eq_some (body : Nat → Option String) (g : Nat → String) (l : List Nat)
    (h : ∀ k ∈ l, body k = some (g k)) :
    run_loop body l = some ((l.map g).foldr (fun a b => a ++ b) "") := by
  induction l with
  | nil => rfl
  | cons k ks ih =>
    have hk := h k (List.mem_cons_self _ _)
    have hks := ih (fun j hj => h j (List.mem_cons_of_mem _ hj))
    simp only [run_loop, hk, hks, List.map_cons, List.foldr_cons]

/-- On an 8x8 grid the cell printed for row `i` and column `j` is the cell the specification
describes for file `j` and rank index `i`. -/
theorem print_cell_eq {squares : Squares} (h : wf squares) {i j : Nat} (hi : i < 8)
    (hj : j < 8) : print_cell squares i j = some (spec_cell squares j i) := by
  obtain ⟨hl, hc⟩ := h
  have hj' : j < squares.length := by omega
  have hi' : i < (squares[j]).length := by rw [hc _ (List.getElem_mem _)]; exact hi
  cases hcell : (squares[j])[i] with
  | none =>
    simp [print_cell, spec_cell, index, List.getElem?_eq_getElem hj',
      List.getElem?_eq_getElem hi', hcell]
  | some piece =>
    simp [print_cell, spec_cell, index, List.getElem?_eq_getElem hj',
      List.getElem?_eq_getElem hi', hcell]

/-- On an 8x8 grid the row printed for `i` is the line the specification describes for rank
number `i + 1`. -/
theorem print_row_eq {squares : Squares} (h : wf squares) {i : Nat} (hi : i < 8) :
    print_row squares i = some (spec_rank_line squares i) := by
  have hi' : i < squares.length := by rw [h.1]; exact hi
  have hlen : (squares[i]).length = 8 := h.2 _ (List.getElem_mem _)
  have hloop := run_loop_eq_some (print_cell squares i) (fun j => spec_cell squares j i)
    (List.range 8) (fun j hj => print_cell_eq h hi (List.mem_range.mp hj))
  have hrange : List.range 8 = [0, 1, 2, 3, 4, 5, 6, 7] := by decide
  rw [hrange] at hloop
  simp only [print_row, List.getElem?_eq_getElem hi', hlen, hloop, hrange, List.map_cons,
    List.map_nil, List.foldr_cons, List.foldr_nil, spec_rank_line, String.append_assoc,
    String.append_empty]

/-- On an 8x8 grid `print_piece` writes the text the specification describes. -/
theorem print_piece_eq {squares : Squares} (h : wf squares) :
    print_piece squares = some (spec_render squares) := by
  have hloop := run_loop_eq_some (print_row squares) (spec_rank_line squares)
    (List.range 8).reverse
    (fun i hi => print_row_eq h (List.mem_range.mp (List.mem_reverse.mp hi)))
  have hrange : (List.range 8).reverse = [7, 6, 5, 4, 3, 2, 1, 0] := by decide
  rw [hrange] at hloop
  simp only [print_piece, h.1, hloop, hrange, List.map_cons, List.map_nil, List.foldr_cons,
    List.foldr_nil, spec_render, String.append_assoc, String.append_empty]

/-- Replacing one element of a list changes a count by what leaves and what enters. -/
theorem countP_set {α : Type} (f : α → Bool) (l : List α) (i : Nat) (h : i < l.length) (v : α) :
    (l.set i v).countP f + (if f (l[i]) then 1 else 0)
      = l.countP f + (if f v then 1 else 0) := by
  induction l generalizing i with
  | nil => simp at h
  | cons a l ih =>
    cases i with
    | zero =>
      simp only [List.set_cons_zero, List.countP_cons, List.getElem_cons_zero]
      omega
    | succ i =>
      have := ih i (by simpa using h)
      simp only [List.set_cons_succ, List.countP_cons, List.getElem_cons_succ]
      omega

/-- Replacing one element of a list changes a sum by what leaves and what enters. -/
theorem sum_map_set {α : Type} (g : α → Nat) (l : List α) (i : Nat) (h : i < l.length) (v : α) :
    ((l.set i v).map g).sum + g (l[i]) = (l.map g).sum + g v := by
  induction l generalizing i with
  | nil => simp at h
  | cons a l ih =>
    cases i with
    | zero =>
      simp only [List.set_cons_zero, List.map_cons, List.sum_cons, List.getElem_cons_zero]
      omega
    | succ i =>
      have := ih i (by simpa using h)
      simp only [List.set_cons_succ, List.map_cons, List.sum_cons, List.getElem_cons_succ]
      omega

/-- Writing a square changes a piece count by the old and the new content of that square. -/
theorem count_pieces_assign (P : Piece → Bool) {squares : Squares} {x y : Int}
    {old : Option Piece} (h : index squares x y = Except.ok old) (cell : Option Piece) :
    count_pieces P (assign squares x y cell) + (if holds P old then 1 else 0)
      = count_pieces P squares + (if holds P cell then 1 else 0) := by
  unfold index at h
  unfold assign count_pieces
  by_cases h1 : 0 ≤ x ∧ 0 ≤ y
  · simp only [h1, and_self, if_true] at h ⊢
    cases hcol : squares[x.toNat]? with
    | none => simp [hcol] at h
    | some column =>
      simp only [hcol] at h
      obtain ⟨hlt, hget⟩ := List.getElem?_eq_some.mp hcol
      cases hc : column[y.toNat]? with
      | none => simp [hc] at h
      | some c =>
        simp only [hc] at h
        injection h with h
        subst h
        obtain ⟨hlt2, hget2⟩ := List.getElem?_eq_some.mp hc
        have e1 := sum_map_set (fun column => List.countP (holds P) column) squares x.toNat hlt
          (column.set y.toNat cell)
        have e2 := countP_set (holds P) column y.toNat hlt2 cell
        simp only [hget, hget2] at e1 e2
        simp only []
        omega
  · simp [h1] at h

/-- Line 149 changes a piece count only by the piece that stood on the destination. -/
theorem count_pieces_move_assign (P : Piece → Bool) {squares : Squares} {fx fy tx ty : Int}
    {p : Piece} {b : Option Piece}
    (hp : index squares fx fy = Except.ok (some p)) (hb : index squares tx ty = Except.ok b)
    (hne : ¬ (fx = tx ∧ fy = ty)) :
    count_pieces P (move_assign squares fx fy tx ty p) + (if holds P b then 1 else 0)
      = count_pieces P squares := by
  have hne' : ¬ (tx = fx ∧ ty = fy) := fun h => hne ⟨h.1.symm, h.2.symm⟩
  have h1 := count_pieces_assign P hp none
  have hb' : index (assign squares fx fy none) tx ty = Except.ok b := by
    rw [index_assign_ne _ _ _ _ _ _ hne']; exact hb
  have h2 := count_pieces_assign P hb' (some p)
  unfold move_assign
  simp only [holds] at h1 h2 ⊢
  simp only [Bool.false_eq_true, if_false] at h1
  omega

/-- After line 149 every piece on the grid comes from a square of the grid before, and two
different squares never draw on the same one. -/
theorem move_assign_provenance {squares : Squares} {fx fy tx ty : Int} {p : Piece}
    {b : Option Piece}
    (hp : index squares fx fy = Except.ok (some p)) (hb : index squares tx ty = Except.ok b)
    (hne : ¬ (fx = tx ∧ fy = ty)) :
    ∃ origin : Int × Int → Int × Int,
      (∀ x y q, index (move_assign squares fx fy tx ty p) x y = Except.ok (some q) →
          index squares (origin (x, y)).1 (origin (x, y)).2 = Except.ok (some q))
      ∧ (∀ x y x' y' q q',
          index (move_assign squares fx fy tx ty p) x y = Except.ok (some q) →
          index (move_assign squares fx fy tx ty p) x' y' = Except.ok (some q') →
          origin (x, y) = origin (x', y') → x = x' ∧ y = y') := by
  have hto := index_move_assign_to hp hb p
  have hfrom := index_move_assign_from hp hne p
  have hfree : ∀ x y q, index (move_assign squares fx fy tx ty p) x y = Except.ok (some q) →
      ¬ (x = fx ∧ y = fy) := by
    rintro x y q h ⟨rfl, rfl⟩
    rw [hfrom] at h
    cases h
  refine ⟨fun s => if s = (tx, ty) then (fx, fy) else s, ?_, ?_⟩
  · intro x y q h
    by_cases ht : x = tx ∧ y = ty
    · obtain ⟨rfl, rfl⟩ := ht
      rw [hto] at h
      injection h with h
      injection h with h
      subst h
      simpa using hp
    · have hs : (x, y) ≠ (tx, ty) := fun e => ht (by simpa using e)
      rw [index_move_assign_other _ _ _ _ _ _ _ _ (hfree x y q h) ht] at h
      simpa [hs] using h
  · intro x y x' y' q q' h h' e
    by_cases ht : x = tx ∧ y = ty <;> by_cases ht' : x' = tx ∧ y' = ty
    · exact ⟨ht.1.trans ht'.1.symm, ht.2.trans ht'.2.symm⟩
    · have hs : (x, y) = (tx, ty) := by simp [ht.1, ht.2]
      have hs' : (x', y') ≠ (tx, ty) := fun e => ht' (by simpa using e)
      simp only [hs, if_true, hs', if_false] at e
      exact absurd (by simpa using e.symm) (hfree x' y' q' h')
    · have hs : (x, y) ≠ (tx, ty) := fun e => ht (by simpa using e)
      have hs' : (x', y') = (tx, ty) := by simp [ht'.1, ht'.2]
      simp only [hs, if_false, hs', if_true] at e
      exact absurd (by simpa using e) (hfree x y q h)
    · have hs : (x, y) ≠ (tx, ty) := fun e => ht (by simpa using e)
      have hs' : (x', y') ≠ (tx, ty) := fun e => ht' (by simpa using e)
      simp only [hs, if_false, hs'] at e
      simpa using e

/-- A guarded piece-moved or board-updated call is neither a piece-removed nor a game-lost call:
the calls of a move to an empty square announce no capture. -/
theorem no_capture_calls {hk : Hooks} {p : Piece} {from_ to_ : String} {g : Squares} {e : Event}
    (he : e ∈ fire hk.on_piece_move (Event.on_piece_move p from_ to_)
      ∨ e ∈ fire hk.update_board (Event.update_board g)) :
    (∀ q s, e ≠ Event.on_piece_removed q s) ∧ (∀ c, e ≠ Event.on_lost_game c) := by
  rcases he with he | he
  · rw [mem_fire he]
    exact ⟨fun _ _ h => Event.noConfusion h, fun _ h => Event.noConfusion h⟩
  · rw [mem_fire he]
    exact ⟨fun _ _ h => Event.noConfusion h, fun _ h => Event.noConfusion h⟩

/-! ## Movement rules -/

/-- C1, as stated, fails where `from_x - to_x` overflows: from file `INT_MIN` to file
`INT_MAX` on the same rank the difference wraps around to 1 and the King accepts the move,
although the file distance is not 1 (it is 4294967295) and the rank distance is 0. -/
theorem King_accepts_wrapped_delta :
    Piece.valid_move ⟨Kind.King, Color.WHITE⟩ (-2147483648) 0 2147483647 0 = true
      ∧ ¬ (|(-2147483648 : Int) - 2147483647| = 1 ∨ |(0 : Int) - 0| = 1) := by
  decide

/-- C1, amended: for a King of either colour and all coordinates whose differences
`fx - tx` and `fy - ty` are representable as `int` (so on every board square), `valid_move`
returns true exactly when the file distance is 1 or the rank distance is 1. -/
theorem King_valid_move_iff (c : Color) (fx fy tx ty : Int)
    (hx : -2147483648 ≤ fx - tx ∧ fx - tx ≤ 2147483647)
    (hy : -2147483648 ≤ fy - ty ∧ fy - ty ≤ 2147483647) :
    Piece.valid_move ⟨Kind.King, c⟩ fx fy tx ty = true ↔ (|fx - tx| = 1 ∨ |fy - ty| = 1) := by
  have e1 : ∀ z : Int, |z| = 1 ↔ (z = 1 ∨ z = -1) := fun z => abs_eq (by norm_num)
  have ax := int_abs_eq_one_iff hx.1 hx.2
  have ay := int_abs_eq_one_iff hy.1 hy.2
  simp only [Piece.valid_move, King.valid_move, int_sub_of_range hx.1 hx.2,
    int_sub_of_range hy.1 hy.2]
  rw [e1, e1, ← ax, ← ay]
  by_cases h1 : int_abs (fx - tx) = 1 <;> by_cases h2 : int_abs (fy - ty) = 1 <;> simp [h1, h2]

/-- C1, amended, at the King step e1 to e2 and at the refused step e1 to e3. -/
theorem King_valid_move_iff_witness :
    (Piece.valid_move ⟨Kind.King, Color.WHITE⟩ 4 0 4 1 = true
        ↔ (|(4 : Int) - 4| = 1 ∨ |(0 : Int) - 1| = 1))
      ∧ (Piece.valid_move ⟨Kind.King, Color.WHITE⟩ 4 0 4 2 = true
        ↔ (|(4 : Int) - 4| = 1 ∨ |(0 : Int) - 2| = 1)) :=
  ⟨King_valid_move_iff Color.WHITE 4 0 4 1 (by decide) (by decide),
    King_valid_move_iff Color.WHITE 4 0 4 2 (by decide) (by decide)⟩

/-- C2, as stated, fails: the white King asked to stay on e1 (file 4, rank 0) is refused. -/
theorem King_stays_on_e1_refused :
    Piece.valid_move ⟨Kind.King, Color.WHITE⟩ 4 0 4 0 = false := by
  decide

/-- C2, amended: a King of either colour never accepts a zero-delta move; `valid_move(x, y, x, y)`
returns false for every square. -/
theorem King_zero_delta_refused (c : Color) (x y : Int) :
    Piece.valid_move ⟨Kind.King, c⟩ x y x y = false := by
  simp [Piece.valid_move, King.valid_move, int_sub_self, int_abs_zero]

/-- C3, as stated, fails where `from_x - to_x` overflows: from file `INT_MAX`, rank 0 to file
`INT_MIN + 1`, rank 1 the file difference wraps around to -2 and the Knight accepts the move,
although the file distance is neither 1 nor 2 (it is 4294967294). -/
theorem Knight_accepts_wrapped_delta :
    Piece.valid_move ⟨Kind.Knight, Color.WHITE⟩ 2147483647 0 (-2147483647) 1 = true
      ∧ ¬ ((|(2147483647 : Int) - (-2147483647)| = 1 ∧ |(0 : Int) - 1| = 2)
        ∨ (|(2147483647 : Int) - (-2147483647)| = 2 ∧ |(0 : Int) - 1| = 1)) := by
  decide

/-- C3, amended: for a Knight of either colour and all coordinates whose differences
`fx - tx` and `fy - ty` are representable as `int` (so on every board square), `valid_move`
returns true exactly when the file and rank distances are (1, 2) or (2, 1). -/
theorem Knight_valid_move_iff (c : Color) (fx fy tx ty : Int)
    (hx : -2147483648 ≤ fx - tx ∧ fx - tx ≤ 2147483647)
    (hy : -2147483648 ≤ fy - ty ∧ fy - ty ≤ 2147483647) :
    Piece.valid_move ⟨Kind.Knight, c⟩ fx fy tx ty = true
      ↔ ((|fx - tx| = 1 ∧ |fy - ty| = 2) ∨ (|fx - tx| = 2 ∧ |fy - ty| = 1)) := by
  simp only [Piece.valid_move, Knight.valid_move, int_sub_of_range hx.1 hx.2,
    int_sub_of_range hy.1 hy.2]
  have e1 : ∀ z : Int, |z| = 1 ↔ (z = 1 ∨ z = -1) := fun z => abs_eq (by norm_num)
  have e2 : ∀ z : Int, |z| = 2 ↔ (z = 2 ∨ z = -2) := fun z => abs_eq (by norm_num)
  rw [e1, e1, e2, e2]
  split_ifs with h1 h2
  · simp only [Bool.and_eq_true, Bool.or_eq_true, decide_eq_true_eq] at h1
    simp only [true_iff]; omega
  · simp only [Bool.and_eq_true, Bool.or_eq_true, decide_eq_true_eq] at h1 h2
    simp only [true_iff]; omega
  · simp only [Bool.and_eq_true, Bool.or_eq_true, decide_eq_true_eq] at h1 h2
    simp only [Bool.false_eq_true, false_iff]; omega

/-- C3, amended, at the Knight step b1 to c3 and at the refused step b1 to b2. -/
theorem Knight_valid_move_iff_witness :
    (Piece.valid_move ⟨Kind.Knight, Color.WHITE⟩ 1 0 2 2 = true
        ↔ ((|(1 : Int) - 2| = 1 ∧ |(0 : Int) - 2| = 2) ∨ (|(1 : Int) - 2| = 2 ∧ |(0 : Int) - 2| = 1)))
      ∧ (Piece.valid_move ⟨Kind.Knight, Color.WHITE⟩ 1 0 1 1 = true
        ↔ ((|(1 : Int) - 1| = 1 ∧ |(0 : Int) - 1| = 2) ∨ (|(1 : Int) - 1| = 2 ∧ |(0 : Int) - 1| = 1))) :=
  ⟨Knight_valid_move_iff Color.WHITE 1 0 2 2 (by decide) (by decide),
    Knight_valid_move_iff Color.WHITE 1 0 1 1 (by decide) (by decide)⟩

/-! ## The `move_piece` transition

In the statements below `from_` and `to_` are the two strings, `(fx, fy)` and `(tx, ty)` the
coordinates lines 120-123 compute from them.  A notification "fires" through its guarded call
`if (hook) hook(args)`, so the calls made are written with `fire`: with the hook installed
`fire` is exactly one call, and no other call is made. -/

/-- C4: capturing an enemy piece that is not a King.  On an 8x8 board with well-formed squares,
when `from_` holds `p`, `p` accepts the move and `to_` holds `q` of the opposite colour, not a
King: `move_piece` returns true, afterwards `to_` holds `p` and `from_` is empty, the calls made
are piece-moved, then piece-removed once with `(q, to_)`, then board-updated, and game-lost is
never called. -/
theorem move_piece_captures_non_king (hk : Hooks) (squares : Squares) (from_ to_ : String)
    (fx fy tx ty : Int) (p q : Piece)
    (hsq : wf squares) (hf : well_formed from_) (ht : well_formed to_)
    (hcf : coords from_ = Except.ok (fx, fy)) (hct : coords to_ = Except.ok (tx, ty))
    (hp : index squares fx fy = Except.ok (some p))
    (hv : p.valid_move fx fy tx ty = true)
    (hq : index squares tx ty = Except.ok (some q))
    (hcol : q.color ≠ p.color) (hkind : q.kind ≠ Kind.King) :
    ∃ r, move_piece hk squares from_ to_ = Except.ok r ∧ r.ret = true
      ∧ index r.squares tx ty = Except.ok (some p)
      ∧ index r.squares fx fy = Except.ok none
      ∧ r.events = fire hk.on_piece_move (Event.on_piece_move p from_ to_)
          ++ fire hk.on_piece_removed (Event.on_piece_removed q to_)
          ++ fire hk.update_board (Event.update_board r.squares)
      ∧ ∀ c, Event.on_lost_game c ∉ r.events := by
  have _ := hsq
  have _ := hf
  have _ := ht
  refine ⟨_, move_piece_eq_capture hk hcf hct hp hv hq hcol, rfl,
    index_move_assign_to hp hq p, index_move_assign_from hp (valid_move_ne hv) p, ?_, ?_⟩
  · simp [hkind]
  · intro c hc
    simp only [hkind, if_false, List.append_nil, List.mem_append] at hc
    rcases hc with (hc | hc) | hc <;> cases mem_fire hc

/-- C4 on a concrete board: the white Knight on g1 takes a black Knight on f3. -/
theorem move_piece_captures_non_king_witness :
    ∃ r, move_piece ChessboardPrint knight_takes_knight "g1" "f3" = Except.ok r ∧ r.ret = true
      ∧ index r.squares 5 2 = Except.ok (some ⟨Kind.Knight, Color.WHITE⟩)
      ∧ index r.squares 6 0 = Except.ok none
      ∧ r.events = [Event.on_piece_move ⟨Kind.Knight, Color.WHITE⟩ "g1" "f3"]
          ++ [Event.on_piece_removed ⟨Kind.Knight, Color.BLACK⟩ "f3"]
          ++ [Event.update_board r.squares]
      ∧ ∀ c, Event.on_lost_game c ∉ r.events :=
  move_piece_captures_non_king ChessboardPrint knight_takes_knight "g1" "f3" 6 0 5 2
    ⟨Kind.Knight, Color.WHITE⟩ ⟨Kind.Knight, Color.BLACK⟩
    (by decide) (by decide) (by decide) (by decide) (by decide) (by decide) (by decide)
    (by decide) (by decide) (by decide)

/-- C5: capturing the enemy King.  On an 8x8 board with well-formed squares, when `from_` holds
`p`, `p` accepts the move and `to_` holds a King `q` of the opposite colour: `move_piece` returns
true, afterwards `to_` holds `p` and `from_` is empty, and the calls made are piece-moved,
piece-removed once with `(q, to_)`, game-lost once with the colour of `q`, then board-updated;
any game-lost call carries the captured King's colour, which is not the mover's. -/
theorem move_piece_captures_king (hk : Hooks) (squares : Squares) (from_ to_ : String)
    (fx fy tx ty : Int) (p q : Piece)
    (hsq : wf squares) (hf : well_formed from_) (ht : well_formed to_)
    (hcf : coords from_ = Except.ok (fx, fy)) (hct : coords to_ = Except.ok (tx, ty))
    (hp : index squares fx fy = Except.ok (some p))
    (hv : p.valid_move fx fy tx ty = true)
    (hq : index squares tx ty = Except.ok (some q))
    (hcol : q.color ≠ p.color) (hkind : q.kind = Kind.King) :
    ∃ r, move_piece hk squares from_ to_ = Except.ok r ∧ r.ret = true
      ∧ index r.squares tx ty = Except.ok (some p)
      ∧ index r.squares fx fy = Except.ok none
      ∧ r.events = fire hk.on_piece_move (Event.on_piece_move p from_ to_)
          ++ fire hk.on_piece_removed (Event.on_piece_removed q to_)
          ++ fire hk.on_lost_game (Event.on_lost_game q.color)
          ++ fire hk.update_board (Event.update_board r.squares)
      ∧ ∀ c, Event.on_lost_game c ∈ r.events → c = q.color ∧ c ≠ p.color := by
  have _ := hsq
  have _ := hf
  have _ := ht
  refine ⟨_, move_piece_eq_capture hk hcf hct hp hv hq hcol, rfl,
    index_move_assign_to hp hq p, index_move_assign_from hp (valid_move_ne hv) p, ?_, ?_⟩
  · simp [hkind]
  · intro c hc
    simp only [hkind, if_true, List.mem_append] at hc
    rcases hc with ((hc | hc) | hc) | hc
    · cases mem_fire hc
    · cases mem_fire hc
    · have h := mem_fire hc
      injection h with h
      exact ⟨h, h ▸ hcol⟩
    · cases mem_fire hc

/-- C5 on a concrete board: the white Knight on f6 takes the black King on e8, and the
game-lost call carries BLACK. -/
theorem move_piece_captures_king_witness :
    ∃ r, move_piece ChessboardPrint knight_takes_king "f6" "e8" = Except.ok r ∧ r.ret = true
      ∧ index r.squares 4 7 = Except.ok (some ⟨Kind.Knight, Color.WHITE⟩)
      ∧ index r.squares 5 5 = Except.ok none
      ∧ r.events = [Event.on_piece_move ⟨Kind.Knight, Color.WHITE⟩ "f6" "e8"]
          ++ [Event.on_piece_removed ⟨Kind.King, Color.BLACK⟩ "e8"]
          ++ [Event.on_lost_game Color.BLACK]
          ++ [Event.update_board r.squares]
      ∧ ∀ c, Event.on_lost_game c ∈ r.events → c = Color.BLACK ∧ c ≠ Color.WHITE :=
  move_piece_captures_king ChessboardPrint knight_takes_king "f6" "e8" 5 5 4 7
    ⟨Kind.Knight, Color.WHITE⟩ ⟨Kind.King, Color.BLACK⟩
    (by decide) (by decide) (by decide) (by decide) (by decide) (by decide) (by decide)
    (by decide) (by decide) (by decide)

/-- C6: moving to an empty square.  On an 8x8 board with well-formed squares, when `from_` holds
`p`, `p` accepts the move and `to_` is empty: `move_piece` returns true, afterwards `to_` holds
the same `p` (type and colour), `from_` is empty, every other square reads as before, and the
only calls made are piece-moved and board-updated: piece-removed, game-lost, invalid-move and
missing-piece are never called. -/
theorem move_piece_to_empty_square (hk : Hooks) (squares : Squares) (from_ to_ : String)
    (fx fy tx ty : Int) (p : Piece)
    (hsq : wf squares) (hf : well_formed from_) (ht : well_formed to_)
    (hcf : coords from_ = Except.ok (fx, fy)) (hct : coords to_ = Except.ok (tx, ty))
    (hp : index squares fx fy = Except.ok (some p))
    (hv : p.valid_move fx fy tx ty = true)
    (hq : index squares tx ty = Except.ok none) :
    ∃ r, move_piece hk squares from_ to_ = Except.ok r ∧ r.ret = true
      ∧ index r.squares tx ty = Except.ok (some p)
      ∧ index r.squares fx fy = Except.ok none
      ∧ (∀ x y : Int, ¬ (x = fx ∧ y = fy) → ¬ (x = tx ∧ y = ty) →
          index r.squares x y = index squares x y)
      ∧ r.events = fire hk.on_piece_move (Event.on_piece_move p from_ to_)
          ++ fire hk.update_board (Event.update_board r.squares)
      ∧ (∀ q s, Event.on_piece_removed q s ∉ r.events)
      ∧ (∀ c, Event.on_lost_game c ∉ r.events)
      ∧ (∀ q a b, Event.on_invalid_move q a b ∉ r.events)
      ∧ (∀ s, Event.on_missing_piece s ∉ r.events) := by
  have _ := hsq
  have _ := hf
  have _ := ht
  refine ⟨_, move_piece_eq_to_empty hk hcf hct hp hv hq, rfl,
    index_move_assign_to hp hq p, index_move_assign_from hp (valid_move_ne hv) p,
    fun x y h1 h2 => index_move_assign_other squares fx fy tx ty x y p h1 h2, rfl,
    ?_, ?_, ?_, ?_⟩
  all_goals
    intros
    intro hc
    simp only [List.mem_append] at hc
    rcases hc with hc | hc <;> cases mem_fire hc

/-- C6 on the starting position: the first move of the demo, King e1 to e2. -/
theorem move_piece_to_empty_square_witness :
    ∃ r, move_piece ChessboardPrint start "e1" "e2" = Except.ok r ∧ r.ret = true
      ∧ index r.squares 4 1 = Except.ok (some ⟨Kind.King, Color.WHITE⟩)
      ∧ index r.squares 4 0 = Except.ok none
      ∧ (∀ x y : Int, ¬ (x = 4 ∧ y = 0) → ¬ (x = 4 ∧ y = 1) →
          index r.squares x y = index start x y)
      ∧ r.events = [Event.on_piece_move ⟨Kind.King, Color.WHITE⟩ "e1" "e2"]
          ++ [Event.update_board r.squares]
      ∧ (∀ q s, Event.on_piece_removed q s ∉ r.events)
      ∧ (∀ c, Event.on_lost_game c ∉ r.events)
      ∧ (∀ q a b, Event.on_invalid_move q a b ∉ r.events)
      ∧ (∀ s, Event.on_missing_piece s ∉ r.events) :=
  move_piece_to_empty_square ChessboardPrint start "e1" "e2" 4 0 4 1 ⟨Kind.King, Color.WHITE⟩
    (by decide) (by decide) (by decide) (by decide) (by decide) (by decide) (by decide)
    (by decide)

/-- C7: a geometrically legal move onto a piece of the mover's colour.  On an 8x8 board with
well-formed squares, when `from_` holds `p`, `p` accepts the move and `to_` holds `q` of the
same colour: `move_piece` returns false, the grid is unchanged, and the calls made are exactly
piece-moved with `(p, from_, to_)` followed by invalid-move with `(p, from_, to_)`;
piece-removed, game-lost and board-updated are never called. -/
theorem move_piece_same_colour (hk : Hooks) (squares : Squares) (from_ to_ : String)
    (fx fy tx ty : Int) (p q : Piece)
    (hsq : wf squares) (hf : well_formed from_) (ht : well_formed to_)
    (hcf : coords from_ = Except.ok (fx, fy)) (hct : coords to_ = Except.ok (tx, ty))
    (hp : index squares fx fy = Except.ok (some p))
    (hv : p.valid_move fx fy tx ty = true)
    (hq : index squares tx ty = Except.ok (some q))
    (hcol : q.color = p.color) :
    ∃ r, move_piece hk squares from_ to_ = Except.ok r ∧ r.ret = false
      ∧ r.squares = squares
      ∧ r.events = fire hk.on_piece_move (Event.on_piece_move p from_ to_)
          ++ fire hk.on_invalid_move (Event.on_invalid_move p from_ to_)
      ∧ (∀ q s, Event.on_piece_removed q s ∉ r.events)
      ∧ (∀ c, Event.on_lost_game c ∉ r.events)
      ∧ (∀ g, Event.update_board g ∉ r.events) := by
  have _ := hsq
  have _ := hf
  have _ := ht
  refine ⟨_, move_piece_eq_same_color hk hcf hct hp hv hq hcol, rfl, rfl, rfl, ?_, ?_, ?_⟩
  all_goals
    intros
    intro hc
    simp only [List.mem_append] at hc
    rcases hc with hc | hc <;> cases mem_fire hc

/-- C7 on a concrete board: the white King on e1 is sent to e2, held by a white Knight. -/
theorem move_piece_same_colour_witness :
    ∃ r, move_piece ChessboardPrint king_blocked "e1" "e2" = Except.ok r ∧ r.ret = false
      ∧ r.squares = king_blocked
      ∧ r.events = [Event.on_piece_move ⟨Kind.King, Color.WHITE⟩ "e1" "e2"]
          ++ [Event.on_invalid_move ⟨Kind.King, Color.WHITE⟩ "e1" "e2"]
      ∧ (∀ q s, Event.on_piece_removed q s ∉ r.events)
      ∧ (∀ c, Event.on_lost_game c ∉ r.events)
      ∧ (∀ g, Event.update_board g ∉ r.events) :=
  move_piece_same_colour ChessboardPrint king_blocked "e1" "e2" 4 0 4 1
    ⟨Kind.King, Color.WHITE⟩ ⟨Kind.Knight, Color.WHITE⟩
    (by decide) (by decide) (by decide) (by decide) (by decide) (by decide) (by decide)
    (by decide) (by decide)

/-- C8: a move the piece refuses.  On an 8x8 board with well-formed squares, when `from_` holds
`p` and `p.valid_move` rejects the move: `move_piece` returns false, the grid is unchanged, and
the only call made is invalid-move with `(p, from_, to_)`; piece-moved is never called. -/
theorem move_piece_rejected (hk : Hooks) (squares : Squares) (from_ to_ : String)
    (fx fy tx ty : Int) (p : Piece)
    (hsq : wf squares) (hf : well_formed from_) (ht : well_formed to_)
    (hcf : coords from_ = Except.ok (fx, fy)) (hct : coords to_ = Except.ok (tx, ty))
    (hp : index squares fx fy = Except.ok (some p))
    (hv : p.valid_move fx fy tx ty = false) :
    ∃ r, move_piece hk squares from_ to_ = Except.ok r ∧ r.ret = false
      ∧ r.squares = squares
      ∧ r.events = fire hk.on_invalid_move (Event.on_invalid_move p from_ to_)
      ∧ (∀ q a b, Event.on_piece_move q a b ∉ r.events) := by
  have _ := hsq
  have _ := hf
  have _ := ht
  refine ⟨_, move_piece_eq_rejected hk hcf hct hp hv, rfl, rfl, rfl, ?_⟩
  intro q a b hc
  cases mem_fire hc

/-- C8 on the starting position, the two refused moves of the demo: King e1 to e3 and
Knight b1 to b2. -/
theorem move_piece_rejected_witness :
    (∃ r, move_piece ChessboardPrint start "e1" "e3" = Except.ok r ∧ r.ret = false
      ∧ r.squares = start
      ∧ r.events = [Event.on_invalid_move ⟨Kind.King, Color.WHITE⟩ "e1" "e3"]
      ∧ (∀ q a b, Event.on_piece_move q a b ∉ r.events))
    ∧ (∃ r, move_piece ChessboardPrint start "b1" "b2" = Except.ok r ∧ r.ret = false
      ∧ r.squares = start
      ∧ r.events = [Event.on_invalid_move ⟨Kind.Knight, Color.WHITE⟩ "b1" "b2"]
      ∧ (∀ q a b, Event.on_piece_move q a b ∉ r.events)) :=
  ⟨move_piece_rejected ChessboardPrint start "e1" "e3" 4 0 4 2 ⟨Kind.King, Color.WHITE⟩
      (by decide) (by decide) (by decide) (by decide) (by decide) (by decide) (by decide),
    move_piece_rejected ChessboardPrint start "b1" "b2" 1 0 1 1 ⟨Kind.Knight, Color.WHITE⟩
      (by decide) (by decide) (by decide) (by decide) (by decide) (by decide) (by decide)⟩

/-- C9: moving from an empty square.  On an 8x8 board with well-formed squares, when `from_` is
empty: `move_piece` returns false, the grid is unchanged, and the only call made is
missing-piece with the source square `from_`. -/
theorem move_piece_missing (hk : Hooks) (squares : Squares) (from_ to_ : String)
    (fx fy : Int) (hsq : wf squares) (hf : well_formed from_) (ht : well_formed to_)
    (hcf : coords from_ = Except.ok (fx, fy))
    (hp : index squares fx fy = Except.ok none) :
    ∃ r, move_piece hk squares from_ to_ = Except.ok r ∧ r.ret = false ∧ r.squares = squares
      ∧ r.events = fire hk.on_missing_piece (Event.on_missing_piece from_) := by
  have _ := hsq
  have _ := hf
  obtain ⟨tx, ty, -, -, hct⟩ := coords_of_well_formed ht
  exact ⟨_, move_piece_eq_missing hk hcf hct hp, rfl, rfl, rfl⟩

/-- C9 on the starting position, the first call of the demo: e3 to e2. -/
theorem move_piece_missing_witness :
    ∃ r, move_piece ChessboardPrint start "e3" "e2" = Except.ok r ∧ r.ret = false
      ∧ r.squares = start ∧ r.events = [Event.on_missing_piece "e3"] :=
  move_piece_missing ChessboardPrint start "e3" "e2" 4 2
    (by decide) (by decide) (by decide) (by decide) (by decide)

/-- C10: the returned boolean tells whether the grid was mutated.  On an 8x8 board (which can
hold only Kings and Knights) with well-formed squares, `move_piece` returns, and it returns true
exactly when the grid after the call differs from the grid before it. -/
theorem move_piece_true_iff_mutated (hk : Hooks) (squares : Squares) (from_ to_ : String)
    (hsq : wf squares) (hf : well_formed from_) (ht : well_formed to_) :
    ∃ r, move_piece hk squares from_ to_ = Except.ok r
      ∧ (r.ret = true ↔ r.squares ≠ squares) := by
  obtain ⟨fx, fy, hfx, hfy, hcf⟩ := coords_of_well_formed hf
  obtain ⟨tx, ty, htx, hty, hct⟩ := coords_of_well_formed ht
  obtain ⟨a, ha⟩ := index_of_wf hsq hfx hfy
  obtain ⟨b, hb⟩ := index_of_wf hsq htx hty
  cases a with
  | none => exact ⟨_, move_piece_eq_missing hk hcf hct ha, by simp⟩
  | some p =>
    cases hv : p.valid_move fx fy tx ty with
    | false => exact ⟨_, move_piece_eq_rejected hk hcf hct ha hv, by simp⟩
    | true =>
      have hne := move_assign_ne (p := p) ha (valid_move_ne hv)
      cases b with
      | none => exact ⟨_, move_piece_eq_to_empty hk hcf hct ha hv hb, by simpa using hne⟩
      | some q =>
        by_cases hcol : q.color = p.color
        · exact ⟨_, move_piece_eq_same_color hk hcf hct ha hv hb hcol, by simp⟩
        · exact ⟨_, move_piece_eq_capture hk hcf hct ha hv hb hcol, by simpa using hne⟩

/-- C10 on the starting position: King e1 to e2 returns true and changes the grid, while the
refused King e1 to e3 returns false and leaves it as it was. -/
theorem move_piece_true_iff_mutated_witness :
    (∃ r, move_piece ChessboardPrint start "e1" "e2" = Except.ok r
      ∧ (r.ret = true ↔ r.squares ≠ start))
    ∧ (∃ r, move_piece ChessboardPrint start "e1" "e3" = Except.ok r
      ∧ (r.ret = true ↔ r.squares ≠ start)) :=
  ⟨move_piece_true_iff_mutated ChessboardPrint start "e1" "e2" (by decide) (by decide) (by decide),
    move_piece_true_iff_mutated ChessboardPrint start "e1" "e3" (by decide) (by decide) (by decide)⟩

/-! ## Shape of the movement rules and display forms -/

/-- C15: move legality depends only on the piece type and the coordinate delta.  For each piece
type, shifting source and destination by the same `(a, b)` does not change `valid_move`, and a
white and a black piece of the same type give the same answer. -/
theorem valid_move_shift_colour (k : Kind) (c c' : Color) (fx fy tx ty a b : Int) :
    Piece.valid_move ⟨k, c⟩ fx fy tx ty
      = Piece.valid_move ⟨k, c'⟩ (fx + a) (fy + b) (tx + a) (ty + b) := by
  have hx : fx + a - (tx + a) = fx - tx := by ring
  have hy : fy + b - (ty + b) = fy - ty := by ring
  cases k
  · simp only [Piece.valid_move, King.valid_move, int_sub, hx, hy]
  · simp only [Piece.valid_move, Knight.valid_move, int_sub, hx, hy]

/-- C16: display forms.  The short code is the first letter of the colour name followed by `k`
for a King and `kn` for a Knight, and the long name is the colour name, a blank and the type
name: for each of the four pieces the two strings are as listed. -/
theorem display_forms :
    (∀ p : Piece, p.print_piece
        = String.singleton (p.color_string.get 0)
          ++ (match p.kind with | Kind.King => "k" | Kind.Knight => "kn"))
    ∧ (∀ p : Piece, p.type
        = p.color_string ++ " " ++ (match p.kind with | Kind.King => "King" | Kind.Knight => "Knight"))
    ∧ Piece.print_piece ⟨Kind.King, Color.WHITE⟩ = "wk"
    ∧ Piece.print_piece ⟨Kind.King, Color.BLACK⟩ = "bk"
    ∧ Piece.print_piece ⟨Kind.Knight, Color.WHITE⟩ = "wkn"
    ∧ Piece.print_piece ⟨Kind.Knight, Color.BLACK⟩ = "bkn"
    ∧ Piece.type ⟨Kind.King, Color.WHITE⟩ = "white King"
    ∧ Piece.type ⟨Kind.King, Color.BLACK⟩ = "black King"
    ∧ Piece.type ⟨Kind.Knight, Color.WHITE⟩ = "white Knight"
    ∧ Piece.type ⟨Kind.Knight, Color.BLACK⟩ = "black Knight" := by
  refine ⟨?_, ?_, by decide, by decide, by decide, by decide, by decide, by decide, by decide,
    by decide⟩
  · rintro ⟨k, c⟩
    cases k <;> cases c <;> decide
  · rintro ⟨k, c⟩
    cases k <;> cases c <;> decide

/-- C18: the King rule accepts moves that are not to an adjacent square.  From e1 (4, 0) to
f8 (5, 7) the larger distance is 7, yet `valid_move` returns true; so on any 8x8 board with a
King on e1 and f8 empty, `move_piece("e1", "f8")` returns true and puts that King on f8. -/
theorem King_accepts_non_adjacent (hk : Hooks) (squares : Squares) (c : Color)
    (hsq : wf squares)
    (hp : index squares 4 0 = Except.ok (some ⟨Kind.King, c⟩))
    (hq : index squares 5 7 = Except.ok none) :
    (∃ fx fy tx ty : Int, (0 ≤ fx ∧ fx < 8) ∧ (0 ≤ fy ∧ fy < 8) ∧ (0 ≤ tx ∧ tx < 8)
        ∧ (0 ≤ ty ∧ ty < 8) ∧ 1 < max |fx - tx| |fy - ty|
        ∧ Piece.valid_move ⟨Kind.King, c⟩ fx fy tx ty = true)
      ∧ coords "e1" = Except.ok (4, 0) ∧ coords "f8" = Except.ok (5, 7)
      ∧ 1 < max |(4 : Int) - 5| |(0 : Int) - 7|
      ∧ Piece.valid_move ⟨Kind.King, c⟩ 4 0 5 7 = true
      ∧ ∃ r, move_piece hk squares "e1" "f8" = Except.ok r ∧ r.ret = true
          ∧ index r.squares 5 7 = Except.ok (some ⟨Kind.King, c⟩)
          ∧ index r.squares 4 0 = Except.ok none := by
  have _ := hsq
  have hv : Piece.valid_move ⟨Kind.King, c⟩ 4 0 5 7 = true := by cases c <;> decide
  have hcf : coords "e1" = Except.ok (4, 0) := by decide
  have hct : coords "f8" = Except.ok (5, 7) := by decide
  refine ⟨⟨4, 0, 5, 7, by decide, by decide, by decide, by decide, by decide, hv⟩, hcf, hct,
    by decide, hv, _, move_piece_eq_to_empty hk hcf hct hp hv hq, rfl,
    index_move_assign_to hp hq _, index_move_assign_from hp (valid_move_ne hv) _⟩

/-- C18 on the starting position: the white King goes from e1 straight to f8. -/
theorem King_accepts_non_adjacent_witness :
    ∃ r, move_piece ChessboardPrint start "e1" "f8" = Except.ok r ∧ r.ret = true
      ∧ index r.squares 5 7 = Except.ok (some ⟨Kind.King, Color.WHITE⟩)
      ∧ index r.squares 4 0 = Except.ok none :=
  (King_accepts_non_adjacent ChessboardPrint start Color.WHITE (by decide) (by decide)
    (by decide)).2.2.2.2.2

/-- C20: a non-capturing move can be undone.  On an 8x8 board with well-formed squares, if
`move_piece(from_, to_)` returns true and `to_` was empty before the call, then
`move_piece(to_, from_)` on the resulting grid returns true as well and leaves exactly the grid
the first call started from. -/
theorem move_piece_undo (hk hk' : Hooks) (squares : Squares) (from_ to_ : String)
    (tx ty : Int) (r1 : Outcome)
    (hsq : wf squares) (hf : well_formed from_) (ht : well_formed to_)
    (hct : coords to_ = Except.ok (tx, ty))
    (hq : index squares tx ty = Except.ok none)
    (h1 : move_piece hk squares from_ to_ = Except.ok r1) (hret : r1.ret = true) :
    ∃ r2, move_piece hk' r1.squares to_ from_ = Except.ok r2 ∧ r2.ret = true
      ∧ r2.squares = squares := by
  have _ := ht
  obtain ⟨fx, fy, hfx, hfy, hcf⟩ := coords_of_well_formed hf
  obtain ⟨a, ha⟩ := index_of_wf hsq hfx hfy
  cases a with
  | none =>
    rw [move_piece_eq_missing hk hcf hct ha] at h1
    injection h1 with h1
    subst h1
    cases hret
  | some p =>
    cases hv : p.valid_move fx fy tx ty with
    | false =>
      rw [move_piece_eq_rejected hk hcf hct ha hv] at h1
      injection h1 with h1
      subst h1
      cases hret
    | true =>
      rw [move_piece_eq_to_empty hk hcf hct ha hv hq] at h1
      injection h1 with h1
      subst h1
      have hne := valid_move_ne hv
      have hne' : ¬ ((tx : Int) = fx ∧ ty = fy) := fun h => hne ⟨h.1.symm, h.2.symm⟩
      have h1t := index_move_assign_to ha hq p
      have h1f := index_move_assign_from ha hne p
      have hv' : p.valid_move tx ty fx fy = true := by rw [valid_move_symm]; exact hv
      exact ⟨_, move_piece_eq_to_empty hk' hct hcf h1t hv' h1f, rfl, move_assign_back hsq ha hq⟩

/-- C20 on the starting position, as in the demo: the black Knight goes g8 to h6 and back. -/
theorem move_piece_undo_witness :
    ∃ r2, move_piece ChessboardPrint (move_assign start 6 7 7 5 ⟨Kind.Knight, Color.BLACK⟩)
        "h6" "g8" = Except.ok r2 ∧ r2.ret = true ∧ r2.squares = start :=
  move_piece_undo ChessboardPrint ChessboardPrint start "g8" "h6" 7 5
    ⟨true, move_assign start 6 7 7 5 ⟨Kind.Knight, Color.BLACK⟩,
      [Event.on_piece_move ⟨Kind.Knight, Color.BLACK⟩ "g8" "h6",
        Event.update_board (move_assign start 6 7 7 5 ⟨Kind.Knight, Color.BLACK⟩)]⟩
    (by decide) (by decide) (by decide) (by decide) (by decide) (by decide) rfl

/-! ## Safety of well-formed notation and the order of notifications -/

/-- C14: well-formed notation is safe.  On an 8x8 board, two strings of a letter a-h followed
by a digit 1-8 parse to file `letter - 'a'` and rank `digit - 1`, all four within 0..7, both grid
accesses are in bounds, and `move_piece` returns a boolean instead of failing; `a1`, `e2` and
`h8` parse to (0, 0), (4, 1) and (7, 7). -/
theorem well_formed_notation_safe (hk : Hooks) (squares : Squares) (from_ to_ : String)
    (hsq : wf squares) (hf : well_formed from_) (ht : well_formed to_) :
    (∃ cf df ct dt : Char, from_.data = [cf, df] ∧ to_.data = [ct, dt]
      ∧ ∃ fx fy tx ty : Int,
          coords from_ = Except.ok (fx, fy) ∧ coords to_ = Except.ok (tx, ty)
          ∧ fx = (cf.toNat : Int) - ('a'.toNat : Int)
          ∧ fy = ((df.toNat : Int) - ('0'.toNat : Int)) - 1
          ∧ tx = (ct.toNat : Int) - ('a'.toNat : Int)
          ∧ ty = ((dt.toNat : Int) - ('0'.toNat : Int)) - 1
          ∧ (0 ≤ fx ∧ fx ≤ 7) ∧ (0 ≤ fy ∧ fy ≤ 7) ∧ (0 ≤ tx ∧ tx ≤ 7) ∧ (0 ≤ ty ∧ ty ≤ 7)
          ∧ (∃ a, index squares fx fy = Except.ok a)
          ∧ (∃ b, index squares tx ty = Except.ok b))
    ∧ (∃ r, move_piece hk squares from_ to_ = Except.ok r)
    ∧ coords "a1" = Except.ok (0, 0) ∧ coords "e2" = Except.ok (4, 1)
    ∧ coords "h8" = Except.ok (7, 7) := by
  obtain ⟨cf, hcf, df, hdf, rfl⟩ := hf
  obtain ⟨ct, hct, dt, hdt, rfl⟩ := ht
  obtain ⟨h1, h2, h3⟩ := coords_mk_int hcf hdf
  obtain ⟨h4, h5, h6⟩ := coords_mk_int hct hdt
  obtain ⟨e1, e2, e3⟩ := coords_mk hcf hdf
  obtain ⟨e4, e5, e6⟩ := coords_mk hct hdt
  obtain ⟨a, ha⟩ := index_of_wf hsq e2 e3
  obtain ⟨b, hb⟩ := index_of_wf hsq e5 e6
  have k1 := h1.symm.trans e1
  have k2 := h4.symm.trans e4
  injection k1 with k1
  injection k2 with k2
  injection k1 with k1x k1y
  injection k2 with k2x k2y
  refine ⟨⟨cf, df, ct, dt, rfl, rfl, _, _, _, _, h1, h4, rfl, rfl, rfl, rfl, h2, h3, h5, h6,
    ⟨a, by rw [k1x, k1y]; exact ha⟩, ⟨b, by rw [k2x, k2y]; exact hb⟩⟩, ?_,
    by decide, by decide, by decide⟩
  rcases move_piece_paths hk e1 e4 ha hb with h | ⟨_, _, _, h⟩ | ⟨_, _, _, _, _, _, h⟩
    | ⟨_, _, _, _, _, _, h⟩ | ⟨_, _, _, _, h⟩
  · exact ⟨_, h.2⟩
  all_goals exact ⟨_, h⟩

/-- C14 on the starting position: the squares `h8` and `a1` parse to (7, 7) and (0, 0), and
the call returns. -/
theorem well_formed_notation_safe_witness :
    ∃ r, move_piece ChessboardPrint start "h8" "a1" = Except.ok r :=
  (well_formed_notation_safe ChessboardPrint start "h8" "a1" (by decide) (by decide)
    (by decide)).2.1

/-- C12: order of the notifications and the board-updated hook.  On an 8x8 board with
well-formed squares the call returns, and: the board-updated call is made exactly when the
call returns true (and the hook is installed), then once, as the last call, carrying the grid
after the move; and a piece-moved call, when made, is the first call and is made once, so it
precedes every piece-removed, game-lost, invalid-move and board-updated call. -/
theorem notification_order (hk : Hooks) (squares : Squares) (from_ to_ : String)
    (hsq : wf squares) (hf : well_formed from_) (ht : well_formed to_) :
    ∃ r, move_piece hk squares from_ to_ = Except.ok r
      ∧ (∃ earlier, r.events = earlier
            ++ (if r.ret = true then fire hk.update_board (Event.update_board r.squares) else [])
          ∧ ∀ g, Event.update_board g ∉ earlier)
      ∧ ((∃ g, Event.update_board g ∈ r.events) ↔ (r.ret = true ∧ hk.update_board = true))
      ∧ (∀ g, Event.update_board g ∈ r.events →
          g = r.squares ∧ r.events.getLast? = some (Event.update_board r.squares))
      ∧ (∃ later, (r.events = later
            ∨ ∃ p, r.events = fire hk.on_piece_move (Event.on_piece_move p from_ to_) ++ later)
          ∧ ∀ p a b, Event.on_piece_move p a b ∉ later)
      ∧ (∀ p a b, Event.on_piece_move p a b ∈ r.events →
          r.events.head? = some (Event.on_piece_move p a b)) := by
  obtain ⟨fx, fy, hfx, hfy, hcf⟩ := coords_of_well_formed hf
  obtain ⟨tx, ty, htx, hty, hct⟩ := coords_of_well_formed ht
  obtain ⟨a, ha⟩ := index_of_wf hsq hfx hfy
  obtain ⟨b, hb⟩ := index_of_wf hsq htx hty
  have key : ∃ r, move_piece hk squares from_ to_ = Except.ok r
      ∧ (∃ earlier, r.events = earlier
            ++ (if r.ret = true then fire hk.update_board (Event.update_board r.squares) else [])
          ∧ ∀ g, Event.update_board g ∉ earlier)
      ∧ (∃ later, (r.events = later
            ∨ ∃ p, r.events = fire hk.on_piece_move (Event.on_piece_move p from_ to_) ++ later)
          ∧ ∀ p a b, Event.on_piece_move p a b ∉ later) := by
    rcases move_piece_paths hk hcf hct ha hb with ⟨_, h⟩ | ⟨p, _, _, h⟩ | ⟨p, q, _, _, _, _, h⟩
      | ⟨p, q, _, _, _, _, h⟩ | ⟨p, _, _, _, h⟩
    · refine ⟨_, h, ⟨fire hk.on_missing_piece (Event.on_missing_piece from_), by simp, ?_⟩,
        ⟨fire hk.on_missing_piece (Event.on_missing_piece from_), Or.inl rfl, ?_⟩⟩
      · intro g hg; cases mem_fire hg
      · intro p a b hg; cases mem_fire hg
    · refine ⟨_, h, ⟨fire hk.on_invalid_move (Event.on_invalid_move p from_ to_), by simp, ?_⟩,
        ⟨fire hk.on_invalid_move (Event.on_invalid_move p from_ to_), Or.inl rfl, ?_⟩⟩
      · intro g hg; cases mem_fire hg
      · intro p a b hg; cases mem_fire hg
    · refine ⟨_, h, ⟨fire hk.on_piece_move (Event.on_piece_move p from_ to_)
          ++ fire hk.on_invalid_move (Event.on_invalid_move p from_ to_), by simp, ?_⟩,
        ⟨fire hk.on_invalid_move (Event.on_invalid_move p from_ to_), Or.inr ⟨p, rfl⟩, ?_⟩⟩
      · intro g hg
        simp only [List.mem_append] at hg
        rcases hg with hg | hg <;> cases mem_fire hg
      · intro p a b hg; cases mem_fire hg
    · refine ⟨_, h, ⟨fire hk.on_piece_move (Event.on_piece_move p from_ to_)
          ++ fire hk.on_piece_removed (Event.on_piece_removed q to_)
          ++ (if q.kind = Kind.King then fire hk.on_lost_game (Event.on_lost_game q.color)
              else []), by simp only [if_true], ?_⟩,
        ⟨fire hk.on_piece_removed (Event.on_piece_removed q to_)
          ++ ((if q.kind = Kind.King then fire hk.on_lost_game (Event.on_lost_game q.color)
              else [])
          ++ fire hk.update_board (Event.update_board (move_assign squares fx fy tx ty p))),
          Or.inr ⟨p, by simp only [List.append_assoc]⟩, ?_⟩⟩
      · intro g hg
        simp only [List.mem_append] at hg
        rcases hg with (hg | hg) | hg
        · cases mem_fire hg
        · cases mem_fire hg
        · split at hg
          · cases mem_fire hg
          · cases hg
      · intro p a b hg
        simp only [List.mem_append] at hg
        rcases hg with hg | hg | hg
        · cases mem_fire hg
        · split at hg
          · cases mem_fire hg
          · cases hg
        · cases mem_fire hg
    · refine ⟨_, h, ⟨fire hk.on_piece_move (Event.on_piece_move p from_ to_),
          by simp only [if_true], ?_⟩,
        ⟨fire hk.update_board (Event.update_board (move_assign squares fx fy tx ty p)),
          Or.inr ⟨p, rfl⟩, ?_⟩⟩
      · intro g hg; cases mem_fire hg
      · intro p a b hg; cases mem_fire hg
  obtain ⟨r, hr, ⟨earlier, he, hne⟩, ⟨later, hl, hnl⟩⟩ := key
  have hmem : ∀ g, Event.update_board g ∈ r.events →
      r.ret = true ∧ fire hk.update_board (Event.update_board r.squares) = [Event.update_board g] := by
    intro g hg
    rw [he, List.mem_append] at hg
    rcases hg with hg | hg
    · exact absurd hg (hne g)
    · split at hg
      · rename_i hret
        exact ⟨hret, fire_of_mem hg⟩
      · cases hg
  refine ⟨r, hr, ⟨earlier, he, hne⟩, ?_, ?_, ⟨later, hl, hnl⟩, ?_⟩
  · constructor
    · rintro ⟨g, hg⟩
      obtain ⟨hret, hfire⟩ := hmem g hg
      refine ⟨hret, ?_⟩
      cases hu : hk.update_board
      · rw [hu] at hfire; simp [fire] at hfire
      · rfl
    · rintro ⟨hret, hu⟩
      refine ⟨r.squares, ?_⟩
      rw [he, hret, hu]
      simp [fire]
  · intro g hg
    obtain ⟨hret, hfire⟩ := hmem g hg
    have hg' : g = r.squares := by
      have h1 := @mem_fire hk.update_board (Event.update_board r.squares)
        (Event.update_board g) (by rw [hfire]; simp)
      injection h1
    subst hg'
    refine ⟨rfl, ?_⟩
    rw [he, hret, if_pos rfl, hfire]
    simp
  · intro p a b hg
    rcases hl with hl | ⟨p', hl⟩
    · rw [hl] at hg
      exact absurd hg (hnl p a b)
    · rw [hl, List.mem_append] at hg
      rcases hg with hg | hg
      · rw [hl, fire_of_mem hg]
        rfl
      · exact absurd hg (hnl p a b)

/-- C12 on the starting position: King e1 to e2 makes the piece-moved call first and the
board-updated call last. -/
theorem notification_order_witness :
    ∃ r, move_piece ChessboardPrint start "e1" "e2" = Except.ok r
      ∧ ((∃ g, Event.update_board g ∈ r.events) ↔ (r.ret = true ∧ ChessboardPrint.update_board = true))
      ∧ (∀ g, Event.update_board g ∈ r.events →
          g = r.squares ∧ r.events.getLast? = some (Event.update_board r.squares))
      ∧ (∀ p a b, Event.on_piece_move p a b ∈ r.events →
          r.events.head? = some (Event.on_piece_move p a b)) :=
  let ⟨r, h1, _, h3, h4, _, h6⟩ :=
    notification_order ChessboardPrint start "e1" "e2" (by decide) (by decide) (by decide)
  ⟨r, h1, h3, h4, h6⟩

/-! ## Rendering -/

/-- C17: rendering orientation.  For every 8x8 board the text written by
`ChessBoard::print_piece`, and likewise by the `update_board` subscriber, is the text
`spec_render` describes: the rank lines 8 down to 1, each starting with its rank number and
showing the files a to h from left to right, the cell of file `f` and rank `r` being the short
code of the piece on `squares[f][r]` or the placeholder `-`, followed by the legend A to H. -/
theorem render_orientation (squares : Squares) (hsq : wf squares) :
    print_piece squares = some (spec_render squares)
      ∧ update_board_subscriber squares = some (spec_render squares) := by
  have h := print_piece_eq hsq
  exact ⟨h, h⟩

set_option maxRecDepth 100000 in
/-- C17 on the starting position: the text written, line by line. -/
theorem render_orientation_witness :
    (print_piece start = some (spec_render start)
      ∧ update_board_subscriber start = some (spec_render start))
    ∧ spec_render start
      = "  8    -  bkn   -   -  bk   -  bkn   - \n"
        ++ "  7    -   -   -   -   -   -   -   - \n"
        ++ "  6    -   -   -   -   -   -   -   - \n"
        ++ "  5    -   -   -   -   -   -   -   - \n"
        ++ "  4    -   -   -   -   -   -   -   - \n"
        ++ "  3    -   -   -   -   -   -   -   - \n"
        ++ "  2    -   -   -   -   -   -   -   - \n"
        ++ "  1    -  wkn   -   -  wk   -  wkn   - \n"
        ++ "       A   B   C   D   E    F   G   H \n\n" :=
  ⟨render_orientation start (by decide), by decide⟩

/-! ## Conservation of pieces -/

/-- C11: piece conservation.  On an 8x8 board with well-formed squares the call returns, and
afterwards: every piece on the grid stands for a piece of the grid before (same type and
colour), taken from a square `origin` of its own, so no piece of the old grid is on two
squares; the number of pieces is one smaller when the call captured (returned true with `to_`
occupied) and unchanged otherwise; and the number of pieces of the mover's colour is
unchanged. -/
theorem piece_conservation (hk : Hooks) (squares : Squares) (from_ to_ : String)
    (fx fy tx ty : Int)
    (hsq : wf squares) (hf : well_formed from_) (ht : well_formed to_)
    (hcf : coords from_ = Except.ok (fx, fy)) (hct : coords to_ = Except.ok (tx, ty)) :
    ∃ r, move_piece hk squares from_ to_ = Except.ok r
      ∧ (∃ origin : Int × Int → Int × Int,
          (∀ x y q, index r.squares x y = Except.ok (some q) →
            index squares (origin (x, y)).1 (origin (x, y)).2 = Except.ok (some q))
          ∧ (∀ x y x' y' q q', index r.squares x y = Except.ok (some q) →
              index r.squares x' y' = Except.ok (some q') →
              origin (x, y) = origin (x', y') → x = x' ∧ y = y'))
      ∧ ((r.ret = true ∧ ∃ q, index squares tx ty = Except.ok (some q)) →
          count_pieces (fun _ => true) r.squares + 1 = count_pieces (fun _ => true) squares)
      ∧ (¬ (r.ret = true ∧ ∃ q, index squares tx ty = Except.ok (some q)) →
          count_pieces (fun _ => true) r.squares = count_pieces (fun _ => true) squares)
      ∧ (∀ p, index squares fx fy = Except.ok (some p) →
          count_pieces (fun q => q.color = p.color) r.squares
            = count_pieces (fun q => q.color = p.color) squares) := by
  obtain ⟨fx', fy', hfx, hfy, hcf'⟩ := coords_of_well_formed hf
  obtain ⟨tx', ty', htx, hty, hct'⟩ := coords_of_well_formed ht
  have e1 := hcf.symm.trans hcf'
  have e2 := hct.symm.trans hct'
  injection e1 with e1
  injection e2 with e2
  injection e1 with e1x e1y
  injection e2 with e2x e2y
  subst e1x e1y e2x e2y
  obtain ⟨a, ha⟩ := index_of_wf hsq hfx hfy
  obtain ⟨b, hb⟩ := index_of_wf hsq htx hty
  have same : ∃ origin : Int × Int → Int × Int,
      (∀ x y q, index squares x y = Except.ok (some q) →
        index squares (origin (x, y)).1 (origin (x, y)).2 = Except.ok (some q))
      ∧ (∀ x y x' y' q q', index squares x y = Except.ok (some q) →
          index squares x' y' = Except.ok (some q') →
          origin (x, y) = origin (x', y') → x = x' ∧ y = y') :=
    ⟨fun s => s, fun _ _ _ h => h, fun _ _ _ _ _ _ _ _ e => by simpa using e⟩
  rcases move_piece_paths hk hcf hct ha hb with ⟨_, h⟩ | ⟨p, _, _, h⟩ | ⟨p, q, _, _, _, _, h⟩
    | ⟨p, q, hap, hv, hbq, hcol, h⟩ | ⟨p, hap, hv, hbn, h⟩
  · refine ⟨_, h, same, ?_, fun _ => rfl, fun _ _ => rfl⟩
    rintro ⟨hc, -⟩
    cases hc
  · refine ⟨_, h, same, ?_, fun _ => rfl, fun _ _ => rfl⟩
    rintro ⟨hc, -⟩
    cases hc
  · refine ⟨_, h, same, ?_, fun _ => rfl, fun _ _ => rfl⟩
    rintro ⟨hc, -⟩
    cases hc
  · subst hap hbq
    have hne := valid_move_ne hv
    refine ⟨_, h, move_assign_provenance ha hb hne, ?_, ?_, ?_⟩
    · intro _
      have := count_pieces_move_assign (fun _ => true) ha hb hne
      simpa [holds] using this
    · intro hc
      exact absurd ⟨rfl, q, hb⟩ hc
    · intro p' hp'
      rw [ha] at hp'
      injection hp' with hp'
      injection hp' with hp'
      subst hp'
      have := count_pieces_move_assign (fun q => q.color = p.color) ha hb hne
      simpa [holds, hcol] using this
  · subst hap hbn
    have hne := valid_move_ne hv
    refine ⟨_, h, move_assign_provenance ha hb hne, ?_, ?_, ?_⟩
    · rintro ⟨_, q, hq⟩
      rw [hb] at hq
      cases hq
    · intro _
      have := count_pieces_move_assign (fun _ => true) ha hb hne
      simpa [holds] using this
    · intro p' _
      have := count_pieces_move_assign (fun q => decide (q.color = p'.color)) ha hb hne
      simpa [holds] using this

/-- C11 on a concrete board: the white Knight on g1 takes the black Knight on f3; seven pieces
become six, and the three white pieces stay three. -/
theorem piece_conservation_witness :
    (∃ r, move_piece ChessboardPrint knight_takes_knight "g1" "f3" = Except.ok r
      ∧ (∃ origin : Int × Int → Int × Int,
          (∀ x y q, index r.squares x y = Except.ok (some q) →
            index knight_takes_knight (origin (x, y)).1 (origin (x, y)).2 = Except.ok (some q))
          ∧ (∀ x y x' y' q q', index r.squares x y = Except.ok (some q) →
              index r.squares x' y' = Except.ok (some q') →
              origin (x, y) = origin (x', y') → x = x' ∧ y = y'))
      ∧ ((r.ret = true ∧ ∃ q, index knight_takes_knight 5 2 = Except.ok (some q)) →
          count_pieces (fun _ => true) r.squares + 1
            = count_pieces (fun _ => true) knight_takes_knight)
      ∧ (¬ (r.ret = true ∧ ∃ q, index knight_takes_knight 5 2 = Except.ok (some q)) →
          count_pieces (fun _ => true) r.squares
            = count_pieces (fun _ => true) knight_takes_knight)
      ∧ (∀ p, index knight_takes_knight 6 0 = Except.ok (some p) →
          count_pieces (fun q => q.color = p.color) r.squares
            = count_pieces (fun q => q.color = p.color) knight_takes_knight))
    ∧ count_pieces (fun _ => true) knight_takes_knight = 7
    ∧ count_pieces (fun q => q.color = Color.WHITE) knight_takes_knight = 3 :=
  ⟨piece_conservation ChessboardPrint knight_takes_knight "g1" "f3" 6 0 5 2
      (by decide) (by decide) (by decide) (by decide) (by decide),
    by decide, by decide⟩

/-! ## The demo in `main` -/

/-- C13: the first four moves of the demo.  From the starting position the calls e1-e2, g8-h6,
b1-c3, h6-g8, each on the grid the previous one left, all return true; afterwards the grid is
`after_four_moves` (white King e2, white Knights c3 and g1, black King e8, black Knights b8 and
g8, every other square empty, among them e1, b1 and h6), and no call made is a piece-removed or
a game-lost call. -/
theorem demo_four_moves (hk : Hooks) :
    ∃ r1 r2 r3 r4 : Outcome,
      move_piece hk start "e1" "e2" = Except.ok r1
      ∧ move_piece hk r1.squares "g8" "h6" = Except.ok r2
      ∧ move_piece hk r2.squares "b1" "c3" = Except.ok r3
      ∧ move_piece hk r3.squares "h6" "g8" = Except.ok r4
      ∧ (r1.ret = true ∧ r2.ret = true ∧ r3.ret = true ∧ r4.ret = true)
      ∧ r4.squares = after_four_moves
      ∧ (index r4.squares 4 1 = Except.ok (some ⟨Kind.King, Color.WHITE⟩)
          ∧ index r4.squares 2 2 = Except.ok (some ⟨Kind.Knight, Color.WHITE⟩)
          ∧ index r4.squares 6 0 = Except.ok (some ⟨Kind.Knight, Color.WHITE⟩)
          ∧ index r4.squares 4 7 = Except.ok (some ⟨Kind.King, Color.BLACK⟩)
          ∧ index r4.squares 1 7 = Except.ok (some ⟨Kind.Knight, Color.BLACK⟩)
          ∧ index r4.squares 6 7 = Except.ok (some ⟨Kind.Knight, Color.BLACK⟩)
          ∧ index r4.squares 4 0 = Except.ok none
          ∧ index r4.squares 1 0 = Except.ok none
          ∧ index r4.squares 7 5 = Except.ok none
          ∧ count_pieces (fun _ => true) r4.squares = 6)
      ∧ (∀ e ∈ r1.events ++ r2.events ++ r3.events ++ r4.events,
          (∀ q s, e ≠ Event.on_piece_removed q s) ∧ (∀ c, e ≠ Event.on_lost_game c)) := by
  have h1 := @move_piece_eq_to_empty hk start "e1" "e2" 4 0 4 1 ⟨Kind.King, Color.WHITE⟩
    (by decide) (by decide) (by decide) (by decide) (by decide)
  have h2 := @move_piece_eq_to_empty hk (move_assign start 4 0 4 1 ⟨Kind.King, Color.WHITE⟩)
    "g8" "h6" 6 7 7 5 ⟨Kind.Knight, Color.BLACK⟩
    (by decide) (by decide) (by decide) (by decide) (by decide)
  have h3 := @move_piece_eq_to_empty hk
    (move_assign (move_assign start 4 0 4 1 ⟨Kind.King, Color.WHITE⟩) 6 7 7 5
      ⟨Kind.Knight, Color.BLACK⟩)
    "b1" "c3" 1 0 2 2 ⟨Kind.Knight, Color.WHITE⟩
    (by decide) (by decide) (by decide) (by decide) (by decide)
  have h4 := @move_piece_eq_to_empty hk
    (move_assign (move_assign (move_assign start 4 0 4 1 ⟨Kind.King, Color.WHITE⟩) 6 7 7 5
      ⟨Kind.Knight, Color.BLACK⟩) 1 0 2 2 ⟨Kind.Knight, Color.WHITE⟩)
    "h6" "g8" 7 5 6 7 ⟨Kind.Knight, Color.BLACK⟩
    (by decide) (by decide) (by decide) (by decide) (by decide)
  have hgrid : move_assign (move_assign (move_assign (move_assign start 4 0 4 1
        ⟨Kind.King, Color.WHITE⟩) 6 7 7 5 ⟨Kind.Knight, Color.BLACK⟩) 1 0 2 2
        ⟨Kind.Knight, Color.WHITE⟩) 7 5 6 7 ⟨Kind.Knight, Color.BLACK⟩ = after_four_moves := by
    decide
  refine ⟨_, _, _, _, h1, h2, h3, h4, ⟨rfl, rfl, rfl, rfl⟩, hgrid, ?_, ?_⟩
  · dsimp only
    rw [hgrid]
    decide
  · intro e he
    simp only [List.mem_append] at he
    rcases he with ((he | he) | he) | he
    all_goals exact no_capture_calls he
/-- C19: the simulated game of the demo.  From the starting position the nine calls e1-e2,
g8-h6, b1-c3, h6-g8, c3-d5, g8-h6, d5-f6, h6-g8, f6-e8, each on the grid the previous one left,
all return true; the first eight make no piece-removed and no game-lost call; the ninth makes
piece-moved, then piece-removed once with the black King and e8, then game-lost once with BLACK,
then board-updated; afterwards a white Knight stands on e8 and no black King is on the board. -/
theorem demo_simulated_game (hk : Hooks) :
    ∃ r1 r2 r3 r4 r5 r6 r7 r8 r9 : Outcome,
      (move_piece hk start "e1" "e2" = Except.ok r1
        ∧ move_piece hk r1.squares "g8" "h6" = Except.ok r2
        ∧ move_piece hk r2.squares "b1" "c3" = Except.ok r3
        ∧ move_piece hk r3.squares "h6" "g8" = Except.ok r4
        ∧ move_piece hk r4.squares "c3" "d5" = Except.ok r5
        ∧ move_piece hk r5.squares "g8" "h6" = Except.ok r6
        ∧ move_piece hk r6.squares "d5" "f6" = Except.ok r7
        ∧ move_piece hk r7.squares "h6" "g8" = Except.ok r8
        ∧ move_piece hk r8.squares "f6" "e8" = Except.ok r9)
      ∧ (r1.ret = true ∧ r2.ret = true ∧ r3.ret = true ∧ r4.ret = true ∧ r5.ret = true
        ∧ r6.ret = true ∧ r7.ret = true ∧ r8.ret = true ∧ r9.ret = true)
      ∧ (∀ e ∈ r1.events ++ r2.events ++ r3.events ++ r4.events ++ r5.events ++ r6.events
            ++ r7.events ++ r8.events,
          (∀ q s, e ≠ Event.on_piece_removed q s) ∧ (∀ c, e ≠ Event.on_lost_game c))
      ∧ r9.events
          = fire hk.on_piece_move (Event.on_piece_move ⟨Kind.Knight, Color.WHITE⟩ "f6" "e8")
            ++ fire hk.on_piece_removed (Event.on_piece_removed ⟨Kind.King, Color.BLACK⟩ "e8")
            ++ fire hk.on_lost_game (Event.on_lost_game Color.BLACK)
            ++ fire hk.update_board (Event.update_board r9.squares)
      ∧ index r8.squares 4 7 = Except.ok (some ⟨Kind.King, Color.BLACK⟩)
      ∧ index r9.squares 4 7 = Except.ok (some ⟨Kind.Knight, Color.WHITE⟩)
      ∧ count_pieces (fun q => q = ⟨Kind.King, Color.BLACK⟩) r9.squares = 0
      ∧ (∀ column ∈ r9.squares, some ⟨Kind.King, Color.BLACK⟩ ∉ column) := by
  have h1 := @move_piece_eq_to_empty hk
    start
    "e1" "e2" 4 0 4 1 ⟨Kind.King, Color.WHITE⟩
    (by decide) (by decide) (by decide) (by decide) (by decide)
  have h2 := @move_piece_eq_to_empty hk
    (move_assign start 4 0 4 1 ⟨Kind.King, Color.WHITE⟩)
    "g8" "h6" 6 7 7 5 ⟨Kind.Knight, Color.BLACK⟩
    (by decide) (by decide) (by decide) (by decide) (by decide)
  have h3 := @move_piece_eq_to_empty hk
    (move_assign (move_assign start 4 0 4 1 ⟨Kind.King, Color.WHITE⟩) 6 7 7 5 ⟨Kind.Knight,
      Color.BLACK⟩)
    "b1" "c3" 1 0 2 2 ⟨Kind.Knight, Color.WHITE⟩
    (by decide) (by decide) (by decide) (by decide) (by decide)
  have h4 := @move_piece_eq_to_empty hk
    (move_assign (move_assign (move_assign start 4 0 4 1 ⟨Kind.King, Color.WHITE⟩) 6 7 7 5
      ⟨Kind.Knight, Color.BLACK⟩) 1 0 2 2 ⟨Kind.Knight, Color.WHITE⟩)
    "h6" "g8" 7 5 6 7 ⟨Kind.Knight, Color.BLACK⟩
    (by decide) (by decide) (by decide) (by decide) (by decide)
  have h5 := @move_piece_eq_to_empty hk
    (move_assign (move_assign (move_assign (move_assign start 4 0 4 1 ⟨Kind.King, Color.WHITE⟩) 6
      7 7 5 ⟨Kind.Knight, Color.BLACK⟩) 1 0 2 2 ⟨Kind.Knight, Color.WHITE⟩) 7 5 6 7 ⟨Kind.Knight,
      Color.BLACK⟩)
    "c3" "d5" 2 2 3 4 ⟨Kind.Knight, Color.WHITE⟩
    (by decide) (by decide) (by decide) (by decide) (by decide)
  have h6 := @move_piece_eq_to_empty hk
    (move_assign (move_assign (move_assign (move_assign (move_assign start 4 0 4 1 ⟨Kind.King,
      Color.WHITE⟩) 6 7 7 5 ⟨Kind.Knight, Color.BLACK⟩) 1 0 2 2 ⟨Kind.Knight, Color.WHITE⟩) 7 5 6
      7 ⟨Kind.Knight, Color.BLACK⟩) 2 2 3 4 ⟨Kind.Knight, Color.WHITE⟩)
    "g8" "h6" 6 7 7 5 ⟨Kind.Knight, Color.BLACK⟩
    (by decide) (by decide) (by decide) (by decide) (by decide)
  have h7 := @move_piece_eq_to_empty hk
    (move_assign (move_assign (move_assign (move_assign (move_assign (move_assign start 4 0 4 1
      ⟨Kind.King, Color.WHITE⟩) 6 7 7 5 ⟨Kind.Knight, Color.BLACK⟩) 1 0 2 2 ⟨Kind.Knight,
      Color.WHITE⟩) 7 5 6 7 ⟨Kind.Knight, Color.BLACK⟩) 2 2 3 4 ⟨Kind.Knight, Color.WHITE⟩) 6 7 7
      5 ⟨Kind.Knight, Color.BLACK⟩)
    "d5" "f6" 3 4 5 5 ⟨Kind.Knight, Color.WHITE⟩
    (by decide) (by decide) (by decide) (by decide) (by decide)
  have h8 := @move_piece_eq_to_empty hk
    (move_assign (move_assign (move_assign (move_assign (move_assign (move_assign (move_assign
      start 4 0 4 1 ⟨Kind.King, Color.WHITE⟩) 6 7 7 5 ⟨Kind.Knight, Color.BLACK⟩) 1 0 2 2
      ⟨Kind.Knight, Color.WHITE⟩) 7 5 6 7 ⟨Kind.Knight, Color.BLACK⟩) 2 2 3 4 ⟨Kind.Knight,
      Color.WHITE⟩) 6 7 7 5 ⟨Kind.Knight, Color.BLACK⟩) 3 4 5 5 ⟨Kind.Knight, Color.WHITE⟩)
    "h6" "g8" 7 5 6 7 ⟨Kind.Knight, Color.BLACK⟩
    (by decide) (by decide) (by decide) (by decide) (by decide)
  have h9 := @move_piece_eq_capture hk
    (move_assign (move_assign (move_assign (move_assign (move_assign (move_assign (move_assign
      (move_assign start 4 0 4 1 ⟨Kind.King, Color.WHITE⟩) 6 7 7 5 ⟨Kind.Knight, Color.BLACK⟩) 1
      0 2 2 ⟨Kind.Knight, Color.WHITE⟩) 7 5 6 7 ⟨Kind.Knight, Color.BLACK⟩) 2 2 3 4 ⟨Kind.Knight,
      Color.WHITE⟩) 6 7 7 5 ⟨Kind.Knight, Color.BLACK⟩) 3 4 5 5 ⟨Kind.Knight, Color.WHITE⟩) 7 5 6
      7 ⟨Kind.Knight, Color.BLACK⟩)
    "f6" "e8" 5 5 4 7 ⟨Kind.Knight, Color.WHITE⟩ ⟨Kind.King, Color.BLACK⟩
    (by decide) (by decide) (by decide) (by decide) (by decide) (by decide)
  have g8 : index
      (move_assign (move_assign (move_assign (move_assign (move_assign (move_assign (move_assign
        (move_assign start 4 0 4 1 ⟨Kind.King, Color.WHITE⟩) 6 7 7 5 ⟨Kind.Knight, Color.BLACK⟩)
        1 0 2 2 ⟨Kind.Knight, Color.WHITE⟩) 7 5 6 7 ⟨Kind.Knight, Color.BLACK⟩) 2 2 3 4
        ⟨Kind.Knight, Color.WHITE⟩) 6 7 7 5 ⟨Kind.Knight, Color.BLACK⟩) 3 4 5 5 ⟨Kind.Knight,
        Color.WHITE⟩) 7 5 6 7 ⟨Kind.Knight, Color.BLACK⟩)
      4 7 = Except.ok (some ⟨Kind.King, Color.BLACK⟩) := by decide
  have g9 : index
      (move_assign (move_assign (move_assign (move_assign (move_assign (move_assign (move_assign
        (move_assign (move_assign start 4 0 4 1 ⟨Kind.King, Color.WHITE⟩) 6 7 7 5 ⟨Kind.Knight,
        Color.BLACK⟩) 1 0 2 2 ⟨Kind.Knight, Color.WHITE⟩) 7 5 6 7 ⟨Kind.Knight, Color.BLACK⟩) 2 2
        3 4 ⟨Kind.Knight, Color.WHITE⟩) 6 7 7 5 ⟨Kind.Knight, Color.BLACK⟩) 3 4 5 5 ⟨Kind.Knight,
        Color.WHITE⟩) 7 5 6 7 ⟨Kind.Knight, Color.BLACK⟩) 5 5 4 7 ⟨Kind.Knight, Color.WHITE⟩)
      4 7 = Except.ok (some ⟨Kind.Knight, Color.WHITE⟩) := by decide
  have c9 : count_pieces (fun q => q = ⟨Kind.King, Color.BLACK⟩)
      (move_assign (move_assign (move_assign (move_assign (move_assign (move_assign (move_assign
        (move_assign (move_assign start 4 0 4 1 ⟨Kind.King, Color.WHITE⟩) 6 7 7 5 ⟨Kind.Knight,
        Color.BLACK⟩) 1 0 2 2 ⟨Kind.Knight, Color.WHITE⟩) 7 5 6 7 ⟨Kind.Knight, Color.BLACK⟩) 2 2
        3 4 ⟨Kind.Knight, Color.WHITE⟩) 6 7 7 5 ⟨Kind.Knight, Color.BLACK⟩) 3 4 5 5 ⟨Kind.Knight,
        Color.WHITE⟩) 7 5 6 7 ⟨Kind.Knight, Color.BLACK⟩) 5 5 4 7 ⟨Kind.Knight, Color.WHITE⟩)
      = 0 := by decide
  have k9 : ∀ column ∈
      (move_assign (move_assign (move_assign (move_assign (move_assign (move_assign (move_assign
        (move_assign (move_assign start 4 0 4 1 ⟨Kind.King, Color.WHITE⟩) 6 7 7 5 ⟨Kind.Knight,
        Color.BLACK⟩) 1 0 2 2 ⟨Kind.Knight, Color.WHITE⟩) 7 5 6 7 ⟨Kind.Knight, Color.BLACK⟩) 2 2
        3 4 ⟨Kind.Knight, Color.WHITE⟩) 6 7 7 5 ⟨Kind.Knight, Color.BLACK⟩) 3 4 5 5 ⟨Kind.Knight,
        Color.WHITE⟩) 7 5 6 7 ⟨Kind.Knight, Color.BLACK⟩) 5 5 4 7 ⟨Kind.Knight, Color.WHITE⟩),
      some (⟨Kind.King, Color.BLACK⟩ : Piece) ∉ column := by decide
  refine ⟨_, _, _, _, _, _, _, _, _, ⟨h1, h2, h3, h4, h5, h6, h7, h8, h9⟩,
    ⟨rfl, rfl, rfl, rfl, rfl, rfl, rfl, rfl, rfl⟩, ?_, ?_, g8, g9, c9, k9⟩
  · intro e he
    simp only [List.mem_append] at he
    rcases he with ((((((he | he) | he) | he) | he) | he) | he) | he
    all_goals exact no_capture_calls he
  · simp

end ChessBoard
